import Mathlib

/-!
Shallow embedding of the VLAN island detection engine of the
`belden-vlan-islands` repository (`src/vlan_islands/analyzer.py`, data model
in `src/vlan_islands/models.py`).

Modelling conventions:
* Python `float` arithmetic on fragmentation ratios is modelled by exact
  rational arithmetic (`ℚ`); the only float operations performed by the code
  are one division, comparison with `0.0` and with `0.5`.
* The `DeviceType` / `DeviceRole` / `LinkType` enumerations are represented
  by their string values; free-form metadata dictionaries and the report
  timestamp are presentation-only and are omitted.
* `networkx.Graph` is modelled by an explicit graph record: an
  insertion-ordered, duplicate-free node list and an insertion-ordered,
  duplicate-free undirected edge list, which is exactly the observable
  structure of `nx.Graph` built through `add_node` / `add_edge`.
* Python sets of device identifiers are modelled by duplicate-free lists;
  all claims proved below are insensitive to the iteration order of sets.
* The recursive DFS of `_find_connected_components` is modelled by an
  explicit work-stack with a fuel argument large enough for the search to
  always terminate (proved in `runDfs_isSome`); the visit set it computes is
  the same.
-/

namespace VlanIslands

/-- Device record (`models.Device`); the `type` and `role` enumerations are
represented by their string values. -/
structure Device where
  id : String
  type : String
  role : String
  location : String
deriving DecidableEq

/-- Physical link record (`models.Link`). -/
structure Link where
  source : String
  target : String
  type : String
  speed : String
deriving DecidableEq

/-- VLAN record (`models.VLAN`). -/
structure VLAN where
  id : Nat
  name : String
  description : String
  devices : List String
deriving DecidableEq

/-- Aggregate topology (`models.NetworkTopology`). -/
structure NetworkTopology where
  devices : List Device
  links : List Link
  vlans : List VLAN
deriving DecidableEq

/-- Undirected graph with insertion-ordered node and edge lists, the
observable structure of an `nx.Graph`. -/
structure Graph where
  nodes : List String
  edges : List (String × String)
deriving DecidableEq

/-- Model of `nx.Graph.add_node`: appends the node unless already present. -/
def Graph.addNode (g : Graph) (n : String) : Graph :=
  if n ∈ g.nodes then g else { g with nodes := g.nodes ++ [n] }

/-- Model of `nx.Graph.add_edge`: ensures both endpoints are nodes, then
appends the undirected edge unless already present (in either
orientation). -/
def Graph.addEdge (g : Graph) (a b : String) : Graph :=
  let g1 := (g.addNode a).addNode b
  if (a, b) ∈ g1.edges ∨ (b, a) ∈ g1.edges then g1
  else { g1 with edges := g1.edges ++ [(a, b)] }

/-- Model of `nx.Graph.neighbors`: the adjacency list of `n`, in edge
insertion order (matching the insertion order of `nx` adjacency dicts). -/
def Graph.neighbors (g : Graph) (n : String) : List String :=
  g.edges.filterMap fun e =>
    if e.1 = n then some e.2 else if e.2 = n then some e.1 else none

/-- Adjacency test: some stored edge joins `a` and `b` (in either
orientation). -/
def Graph.adjb (g : Graph) (a b : String) : Bool :=
  g.edges.any fun e => (e.1 = a ∧ e.2 = b) ∨ (e.1 = b ∧ e.2 = a)

/-- Well-formedness: every stored edge joins two stored nodes.  Every graph
the analyzer builds satisfies this. -/
def Graph.WF (g : Graph) : Prop :=
  ∀ e ∈ g.edges, e.1 ∈ g.nodes ∧ e.2 ∈ g.nodes

/-- Model of `VLANIslandAnalyzer._build_physical_graph`: all devices become
nodes, then every link contributes one undirected edge. -/
def build_physical_graph (t : NetworkTopology) : Graph :=
  let g0 := t.devices.foldl (fun g d => g.addNode d.id) ⟨[], []⟩
  t.links.foldl (fun g l => g.addEdge l.source l.target) g0

/-- Model of `VLANIslandAnalyzer._get_vlan_subgraph`: the subgraph of `g`
induced by the VLAN's member set (`g.subgraph(vlan_devices).copy()`): nodes
of `g` that are members, edges of `g` with both endpoints members. -/
def get_vlan_subgraph (g : Graph) (vlan : VLAN) : Graph :=
  { nodes := g.nodes.filter (fun n => n ∈ vlan.devices),
    edges := g.edges.filter (fun e => e.1 ∈ vlan.devices ∧ e.2 ∈ vlan.devices) }

/-- Work-stack depth-first search of `_find_connected_components.dfs`,
with explicit fuel.  Stack entries already visited are skipped; stack
entries that are not nodes of the graph are skipped as well (this never
happens on the graphs the analyzer builds, whose adjacency lists consist of
nodes).  Returns `none` when the fuel runs out, which `runDfs_isSome` shows
never happens for the fuel used by `runDfs`. -/
def dfsAux (g : Graph) : Nat → List String → List String → Option (List String)
  | _, [], visited => some visited
  | 0, _ :: _, _ => none
  | fuel + 1, n :: rest, visited =>
    if n ∈ visited then dfsAux g fuel rest visited
    else if n ∈ g.nodes then
      dfsAux g fuel (g.neighbors n ++ rest) (visited ++ [n])
    else dfsAux g fuel rest visited

/-- Depth-first search from a single start node, with fuel that always
suffices (`runDfs_isSome`). -/
def runDfs (g : Graph) (n : String) (visited : List String) :
    Option (List String) :=
  dfsAux g (g.nodes.length * (g.edges.length + 1) + 1) [n] visited

/-- Outer loop of `_find_connected_components`: scan the nodes in graph
order, starting a fresh DFS at every unvisited node; each DFS appends the
newly visited nodes, which form one component.  The `none` fallback is dead
code (`runDfs_isSome`). -/
def ccFold (g : Graph) :
    List String → List String → List (List String) →
      List String × List (List String)
  | [], visited, comps => (visited, comps)
  | n :: ns, visited, comps =>
    if n ∈ visited then ccFold g ns visited comps
    else
      match runDfs g n visited with
      | some v2 => ccFold g ns v2 (comps ++ [v2.drop visited.length])
      | none => ccFold g ns visited comps

/-- Model of `VLANIslandAnalyzer._find_connected_components`. -/
def find_connected_components (g : Graph) : List (List String) :=
  (ccFold g g.nodes [] []).2

/-- One VLAN island (`analyzer.VLANIsland`); `devices` is a Python set,
modelled by a duplicate-free list. -/
structure VLANIsland where
  vlan_id : Nat
  devices : List String
  island_id : Nat
  is_main_island : Bool
deriving DecidableEq

/-- Number of devices in the island (`VLANIsland.size`). -/
def VLANIsland.size (i : VLANIsland) : Nat := i.devices.length

/-- Per-VLAN analysis result (`analyzer.VLANAnalysisResult`). -/
structure VLANAnalysisResult where
  vlan_id : Nat
  vlan_name : String
  total_devices : Nat
  islands : List VLANIsland
  has_islands : Bool
  main_island_size : Nat
  fragmentation_ratio : ℚ
deriving DecidableEq

/-- Number of islands detected (`VLANAnalysisResult.island_count`). -/
def VLANAnalysisResult.island_count (r : VLANAnalysisResult) : Nat :=
  r.islands.length

/-- Number of devices outside the main island
(`VLANAnalysisResult.isolated_devices`). -/
def VLANAnalysisResult.isolated_devices (r : VLANAnalysisResult) : Nat :=
  r.total_devices - r.main_island_size

/-- Dict lookup `self._vlan_index.get(vlan_id)`: the index is built by a
dict comprehension over `topology.vlans`, so a later entry with the same id
wins. -/
def vlan_index_get (t : NetworkTopology) (vlanId : Nat) : Option VLAN :=
  t.vlans.foldl (fun acc vl => if vl.id = vlanId then some vl else acc) none

/-- Dict lookup `self._device_index.get(device_id)`. -/
def device_index_get (t : NetworkTopology) (deviceId : String) : Option Device :=
  t.devices.foldl (fun acc d => if d.id = deviceId then some d else acc) none

/-- Conversion of discovered components to `VLANIsland`s
(`analyze_vlan`, `for i, component in enumerate(components)`): island ids
are assigned sequentially, starting at `start + 1`, in component discovery
order, before any sorting happens. -/
def mkIslands (vid : Nat) : Nat → List (List String) → List VLANIsland
  | _, [] => []
  | i, c :: cs => ⟨vid, c, i + 1, false⟩ :: mkIslands vid (i + 1) cs

/-- Sort key of `islands.sort(key=lambda x: x.size, reverse=True)`:
`a` may precede `b` when `a` is at least as large. -/
def bySizeDesc (a b : VLANIsland) : Prop := b.size ≤ a.size

instance : DecidableRel bySizeDesc := fun _ _ => Nat.decLe _ _

instance : IsTotal VLANIsland bySizeDesc :=
  ⟨fun a b => (Nat.le_total a.size b.size).symm⟩

instance : IsTrans VLANIsland bySizeDesc :=
  ⟨fun _ _ _ hab hbc => Nat.le_trans hbc hab⟩

/-- Marking `islands[0].is_main_island = True` after the sort. -/
def markMain : List VLANIsland → List VLANIsland
  | [] => []
  | h :: t => { h with is_main_island := true } :: t

/-- The degenerate result returned for a VLAN with no members. -/
def emptyVlanResult (vlan : VLAN) : VLANAnalysisResult :=
  { vlan_id := vlan.id, vlan_name := vlan.name, total_devices := 0,
    islands := [], has_islands := false, main_island_size := 0,
    fragmentation_ratio := 0 }

/-- The non-degenerate branch of `analyze_vlan`, as a function of the
physical graph: project the subgraph, find components, convert to islands
(ids in discovery order), sort by size descending (Python `list.sort` is
stable; so is insertion sort), mark the first island as main, and compute
the metrics. -/
def analyzeVlanWith (g : Graph) (vlan : VLAN) : VLANAnalysisResult :=
  let sub := get_vlan_subgraph g vlan
  let comps := find_connected_components sub
  let islands := markMain (List.insertionSort bySizeDesc (mkIslands vlan.id 0 comps))
  let mainSize : Nat := (islands.head?.map (fun i => i.size)).getD 0
  let total : Nat := vlan.devices.length
  let ratio : ℚ := if total > 0 then ((total : ℚ) - (mainSize : ℚ)) / (total : ℚ) else 0
  { vlan_id := vlan.id, vlan_name := vlan.name, total_devices := total,
    islands := islands, has_islands := decide (islands.length > 1),
    main_island_size := mainSize, fragmentation_ratio := ratio }

/-- Model of `VLANIslandAnalyzer.analyze_vlan`. -/
def analyze_vlan (t : NetworkTopology) (vlanId : Nat) : Option VLANAnalysisResult :=
  match vlan_index_get t vlanId with
  | none => none
  | some vlan =>
    if vlan.devices.isEmpty then some (emptyVlanResult vlan)
    else some (analyzeVlanWith (build_physical_graph t) vlan)

/-- Network-wide report (`analyzer.NetworkAnalysisReport`); the timestamp
and the topology statistics dictionary are presentation-only and omitted. -/
structure NetworkAnalysisReport where
  vlan_results : List VLANAnalysisResult
  problematic_vlans : List VLANAnalysisResult
  total_islands : Nat
  recommendations : List String
deriving DecidableEq

/-- Sort key of `sorted(problematic_vlans, key=lambda x:
x.fragmentation_ratio, reverse=True)`. -/
def byRatioDesc (a b : VLANAnalysisResult) : Prop :=
  b.fragmentation_ratio ≤ a.fragmentation_ratio

instance : DecidableRel byRatioDesc := fun _ _ =>
  inferInstanceAs (Decidable (_ ≤ _))

instance : IsTotal VLANAnalysisResult byRatioDesc :=
  ⟨fun a b => (le_total a.fragmentation_ratio b.fragmentation_ratio).symm⟩

instance : IsTrans VLANAnalysisResult byRatioDesc :=
  ⟨fun _ _ _ hab hbc => le_trans hbc hab⟩

/-- Python `max(problematic_vlans, key=lambda x: x.fragmentation_ratio)`:
the first element attaining the maximal ratio. -/
def maxByRatio : VLANAnalysisResult → List VLANAnalysisResult → VLANAnalysisResult
  | best, [] => best
  | best, h :: t =>
    maxByRatio (if best.fragmentation_ratio < h.fragmentation_ratio then h else best) t

/-- The single healthy-network message. -/
def healthyMsg : String :=
  "[+] No VLAN islands detected. Network topology appears healthy."

/-- The per-problematic-VLAN issue line; number formatting abstracts the
Python f-string. -/
def vlanIssueLine (r : VLANAnalysisResult) : String :=
  let vid := toString r.vlan_id
  let nm := r.vlan_name
  let ic := toString r.island_count
  let iso := toString r.isolated_devices
  "  • VLAN " ++ vid ++ " (" ++ nm ++ "): " ++ ic ++ " islands, " ++ iso ++ " devices isolated"

/-- The header line preceding the per-VLAN issue lines. -/
def detectedHeader (n : Nat) : String :=
  "[!] Detected " ++ toString n ++ " VLANs with connectivity issues:"

/-- The fixed block of generic remediation steps. -/
def remediationSteps : List String :=
  ["",
   "💡 Recommended actions:",
   "1. Review physical connectivity between isolated devices",
   "2. Check VLAN configuration on intermediate switches",
   "3. Verify trunk port configurations",
   "4. Consider adding redundant links for critical paths",
   "5. Use network visualization to identify connection gaps"]

/-- The priority block appended for the worst VLAN; the `.1%` float
formatting of the ratio is abstracted by printing the exact rational. -/
def priorityBlock (w : VLANAnalysisResult) : List String :=
  let vid := toString w.vlan_id
  let fr := toString w.fragmentation_ratio
  ["",
   "🔥 Priority: VLAN " ++ vid ++ " has " ++ fr ++
     " of devices isolated - investigate immediately"]

/-- Model of `VLANIslandAnalyzer._generate_recommendations`. -/
def generate_recommendations (problematic : List VLANAnalysisResult) : List String :=
  match problematic with
  | [] => [healthyMsg]
  | p :: ps =>
    let sorted := List.insertionSort byRatioDesc (p :: ps)
    let worst := maxByRatio p ps
    detectedHeader (p :: ps).length :: sorted.map vlanIssueLine ++ remediationSteps ++
      (if (1 : ℚ) / 2 < worst.fragmentation_ratio then priorityBlock worst else [])

/-- Model of `VLANIslandAnalyzer.analyze_all_vlans` (timestamp and summary
statistics omitted). -/
def analyze_all_vlans (t : NetworkTopology) : NetworkAnalysisReport :=
  let results := t.vlans.filterMap fun vl => analyze_vlan t vl.id
  let problematic := results.filter fun r => r.has_islands
  { vlan_results := results,
    problematic_vlans := problematic,
    total_islands := (results.map fun r => r.island_count).sum,
    recommendations := generate_recommendations problematic }

/-- Simple-path enumeration of `nx.all_simple_paths` with a cutoff on the
number of edges: from `u`, a path reaching `target` stops there; otherwise,
if fuel remains, it extends through any neighbor not yet on the path. -/
def simplePathsAux (g : Graph) (target : String) :
    Nat → String → List String → List (List String)
  | fuel, u, visited =>
    if u = target then [[u]]
    else
      match fuel with
      | 0 => []
      | f + 1 =>
        ((g.neighbors u).filter fun w => w ∉ u :: visited).flatMap fun w =>
          (simplePathsAux g target f w (u :: visited)).map fun p => u :: p

/-- Model of `nx.all_simple_paths(G, source, target, cutoff)`: if source and
target coincide there are no simple paths (networkx yields nothing). -/
def allSimplePaths (g : Graph) (s t : String) (cutoff : Nat) : List (List String) :=
  if s = t then [] else simplePathsAux g t cutoff s []

/-- Model of `VLANIslandAnalyzer.find_connection_paths`.  `none` models the
uncaught `NodeNotFound` exception raised by networkx when a VLAN member is
absent from the physical graph; all other outcomes return a path list. -/
def find_connection_paths (t : NetworkTopology) (source_device target_device : String)
    (vlanId : Nat) : Option (List (List String)) :=
  match vlan_index_get t vlanId with
  | none => some []
  | some vlan =>
    if source_device ∉ vlan.devices ∨ target_device ∉ vlan.devices then some []
    else
      let sub := get_vlan_subgraph (build_physical_graph t) vlan
      if source_device ∈ sub.nodes ∧ target_device ∈ sub.nodes then
        some (allSimplePaths sub source_device target_device 10)
      else none

/-- One bridge suggestion entry of `_find_bridge_candidates`. -/
structure BridgeCandidate where
  isolated_device : String
  bridge_device : String
  bridge_type : String
  action : String
deriving DecidableEq

/-- Model of `VLANIslandAnalyzer._find_bridge_candidates`: for every device
of the isolated island, every physical neighbor outside the island that
itself has a physical neighbor inside the main island becomes a
candidate. -/
def find_bridge_candidates (t : NetworkTopology) (g : Graph)
    (isolated_devices main_island_devices : List String) : List BridgeCandidate :=
  isolated_devices.flatMap fun d =>
    ((g.neighbors d).filter fun b => b ∉ isolated_devices).filterMap fun b =>
      if (g.neighbors b).any fun x => x ∈ main_island_devices then
        some
          { isolated_device := d, bridge_device := b,
            bridge_type :=
              match device_index_get t b with
              | some dev => dev.type
              | none => "unknown",
            action := "Configure VLAN on " ++ b ++ " to bridge " ++ d ++ " to main island" }
      else none

/-- One entry of the `connection_opportunities` list. -/
structure ConnectionOpportunity where
  island : VLANIsland
  bridge_candidates : List BridgeCandidate
deriving DecidableEq

/-- The suggestion dictionary returned for a fragmented VLAN. -/
structure ConnectivitySuggestions where
  vlan_id : Nat
  vlan_name : String
  island_count : Nat
  connection_opportunities : List ConnectionOpportunity
deriving DecidableEq

/-- Model of `VLANIslandAnalyzer.get_island_connectivity_suggestions`;
`none` models the `{"message": "No islands detected for this VLAN"}`
early return (missing VLAN, or at most one island). -/
def get_island_connectivity_suggestions (t : NetworkTopology) (vlanId : Nat) :
    Option ConnectivitySuggestions :=
  match analyze_vlan t vlanId with
  | none => none
  | some r =>
    if r.has_islands = false then none
    else
      let g := build_physical_graph t
      let opps :=
        match r.islands.find? fun i => i.is_main_island with
        | none => []
        | some mainIsl =>
          (r.islands.filter fun i => i ≠ mainIsl).filterMap fun isl =>
            let cands := find_bridge_candidates t g isl.devices mainIsl.devices
            if cands.isEmpty then none else some ⟨isl, cands⟩
      some { vlan_id := vlanId, vlan_name := r.vlan_name,
             island_count := r.island_count, connection_opportunities := opps }

/-- Executable test that consecutive entries of a list are adjacent in `g`. -/
def Graph.chainb (g : Graph) : List String → Bool
  | [] => true
  | [_] => true
  | a :: b :: rest => g.adjb a b && Graph.chainb g (b :: rest)

/-- Executable duplicate-freeness test. -/
def nodupb : List String → Bool
  | [] => true
  | a :: l => !l.contains a && nodupb l

/-- A simple path between `s` and `t` in `g`: consecutive nodes adjacent,
endpoints as required, no repeated node. -/
def Graph.IsPathBetween (g : Graph) (s t : String) (p : List String) : Prop :=
  p.head? = some s ∧ p.getLast? = some t ∧ g.chainb p = true ∧ nodupb p = true

instance (g : Graph) (s t : String) (p : List String) :
    Decidable (g.IsPathBetween s t p) :=
  inferInstanceAs (Decidable (p.head? = some s ∧ p.getLast? = some t ∧
    g.chainb p = true ∧ nodupb p = true))

/-! ### The stateful analyzer object

`VLANIslandAnalyzer` carries mutable state: the topology, the two lookup
indexes built by `__init__`, and the lazily built physical-graph cache.
The stateful operations below thread that state explicitly; the pure
functions above are their functional cores. -/

/-- The instance state of a `VLANIslandAnalyzer`. -/
structure AnalyzerState where
  topology : NetworkTopology
  physical_graph_cache : Option Graph
  device_index : List (String × Device)
  vlan_index : List (Nat × VLAN)
deriving DecidableEq

/-- Dict lookup on an association list built like a Python dict
comprehension: a later binding of the same key wins. -/
def assoc_get {α β : Type} [DecidableEq α] (l : List (α × β)) (k : α) : Option β :=
  l.foldl (fun acc p => if p.1 = k then some p.2 else acc) none

/-- Model of `VLANIslandAnalyzer.__init__`: stores the topology, builds both
indexes eagerly, and leaves the physical-graph cache empty. -/
def mkAnalyzer (t : NetworkTopology) : AnalyzerState :=
  { topology := t, physical_graph_cache := none,
    device_index := t.devices.map fun d => (d.id, d),
    vlan_index := t.vlans.map fun vl => (vl.id, vl) }

/-- Model of the `physical_graph` property: return the cached graph, or
build and cache it on first access. -/
def AnalyzerState.getPhysicalGraph (s : AnalyzerState) : Graph × AnalyzerState :=
  match s.physical_graph_cache with
  | some g => (g, s)
  | none =>
    let g := build_physical_graph s.topology
    (g, { s with physical_graph_cache := some g })

/-- Stateful `analyze_vlan`: touches the physical graph (possibly building
the cache) only for a VLAN that exists and has members. -/
def analyze_vlan_state (s : AnalyzerState) (vlanId : Nat) :
    Option VLANAnalysisResult × AnalyzerState :=
  match assoc_get s.vlan_index vlanId with
  | none => (none, s)
  | some vlan =>
    if vlan.devices.isEmpty then (some (emptyVlanResult vlan), s)
    else
      let gs := s.getPhysicalGraph
      (some (analyzeVlanWith gs.1 vlan), gs.2)

/-- One iteration of the `analyze_all_vlans` loop: analyze the VLAN on the
current state, append the result when present (`if result:`). -/
def aavStep (acc : List VLANAnalysisResult × AnalyzerState) (vl : VLAN) :
    List VLANAnalysisResult × AnalyzerState :=
  let r := analyze_vlan_state acc.2 vl.id
  match r.1 with
  | some res => (acc.1 ++ [res], r.2)
  | none => (acc.1, r.2)

/-- Stateful `analyze_all_vlans`: analyze every VLAN in topology order,
threading the analyzer state, then aggregate. -/
def analyze_all_vlans_state (s : AnalyzerState) :
    NetworkAnalysisReport × AnalyzerState :=
  let rs := s.topology.vlans.foldl aavStep ([], s)
  let results := rs.1
  let problematic := results.filter fun r => r.has_islands
  ({ vlan_results := results, problematic_vlans := problematic,
     total_islands := (results.map fun r => r.island_count).sum,
     recommendations := generate_recommendations problematic }, rs.2)

/-- Stateful `find_connection_paths`. -/
def find_connection_paths_state (s : AnalyzerState)
    (source_device target_device : String) (vlanId : Nat) :
    Option (List (List String)) × AnalyzerState :=
  match assoc_get s.vlan_index vlanId with
  | none => (some [], s)
  | some vlan =>
    if source_device ∉ vlan.devices ∨ target_device ∉ vlan.devices then (some [], s)
    else
      let gs := s.getPhysicalGraph
      let sub := get_vlan_subgraph gs.1 vlan
      if source_device ∈ sub.nodes ∧ target_device ∈ sub.nodes then
        (some (allSimplePaths sub source_device target_device 10), gs.2)
      else (none, gs.2)

/-- Stateful `get_island_connectivity_suggestions`. -/
def get_island_connectivity_suggestions_state (s : AnalyzerState) (vlanId : Nat) :
    Option ConnectivitySuggestions × AnalyzerState :=
  let ra := analyze_vlan_state s vlanId
  match ra.1 with
  | none => (none, ra.2)
  | some r =>
    if r.has_islands = false then (none, ra.2)
    else
      let gs := ra.2.getPhysicalGraph
      let opps :=
        match r.islands.find? fun i => i.is_main_island with
        | none => []
        | some mainIsl =>
          (r.islands.filter fun i => i ≠ mainIsl).filterMap fun isl =>
            let cands := find_bridge_candidates s.topology gs.1 isl.devices mainIsl.devices
            if cands.isEmpty then none else some ⟨isl, cands⟩
      (some { vlan_id := vlanId, vlan_name := r.vlan_name,
              island_count := r.island_count, connection_opportunities := opps }, gs.2)

/-- The analyzer states reachable from `__init__`: indexes are the ones
built by the constructor and the cache is either still empty or holds the
graph of the stored topology. -/
def AnalyzerState.Valid (s : AnalyzerState) : Prop :=
  s.device_index = (s.topology.devices.map fun d => (d.id, d)) ∧
  s.vlan_index = (s.topology.vlans.map fun vl => (vl.id, vl)) ∧
  (s.physical_graph_cache = none ∨
    s.physical_graph_cache = some (build_physical_graph s.topology))

/-- Frame relation between two analyzer states: everything except the
physical-graph cache is unchanged, and the cache is either untouched or has
just been filled with the graph of the (unchanged) topology. -/
def cacheFrame (s s2 : AnalyzerState) : Prop :=
  s2.topology = s.topology ∧ s2.device_index = s.device_index ∧
  s2.vlan_index = s.vlan_index ∧
  (s2.physical_graph_cache = s.physical_graph_cache ∨
    (s.physical_graph_cache = none ∧
     s2.physical_graph_cache = some (build_physical_graph s.topology)))

/-! ### Concrete example topologies (used to instantiate the theorems) -/

/-- The five-switch topology of the repository's own test suite: `sw1-sw2-sw3`
connected, `sw4-sw5` an isolated pair; VLAN 100 spans all five, VLAN 200 is
healthy, VLAN 300 has no members. -/
def exSimple : NetworkTopology :=
  { devices := [⟨"sw1", "switch", "core", "datacenter"⟩,
                ⟨"sw2", "switch", "distribution", "building-a"⟩,
                ⟨"sw3", "switch", "access", "building-a"⟩,
                ⟨"sw4", "switch", "access", "building-b"⟩,
                ⟨"sw5", "switch", "access", "building-b"⟩],
    links := [⟨"sw1", "sw2", "ethernet", "10G"⟩,
              ⟨"sw2", "sw3", "ethernet", "1G"⟩,
              ⟨"sw4", "sw5", "ethernet", "1G"⟩],
    vlans := [⟨100, "Test-VLAN", "islands", ["sw1", "sw2", "sw3", "sw4", "sw5"]⟩,
              ⟨200, "Healthy-VLAN", "ok", ["sw1", "sw2", "sw3"]⟩,
              ⟨300, "Empty-VLAN", "empty", []⟩] }

/-- Three devices, one edge `b-c`: component discovery order is `[a]` then
`[b, c]`, so after the size sort the first island carries island id 2. -/
def exIdOrder : NetworkTopology :=
  { devices := [⟨"a", "switch", "core", "x"⟩, ⟨"b", "switch", "core", "x"⟩,
                ⟨"c", "switch", "core", "x"⟩],
    links := [⟨"b", "c", "ethernet", "1G"⟩],
    vlans := [⟨10, "users", "d", ["a", "b", "c"]⟩] }

/-- A chain of twelve devices, all in VLAN 1: one single island, but the
only simple path from `a` to `l` has 11 hops, one more than the cutoff. -/
def exChain : NetworkTopology :=
  { devices := ["a", "b", "c", "d", "e", "f", "g", "h", "i", "j", "k", "l"].map
      fun n => ⟨n, "switch", "access", "x"⟩,
    links := [⟨"a", "b", "ethernet", "1G"⟩, ⟨"b", "c", "ethernet", "1G"⟩,
              ⟨"c", "d", "ethernet", "1G"⟩, ⟨"d", "e", "ethernet", "1G"⟩,
              ⟨"e", "f", "ethernet", "1G"⟩, ⟨"f", "g", "ethernet", "1G"⟩,
              ⟨"g", "h", "ethernet", "1G"⟩, ⟨"h", "i", "ethernet", "1G"⟩,
              ⟨"i", "j", "ethernet", "1G"⟩, ⟨"j", "k", "ethernet", "1G"⟩,
              ⟨"k", "l", "ethernet", "1G"⟩],
    vlans := [⟨1, "chain", "d", ["a", "b", "c", "d", "e", "f", "g", "h", "i", "j", "k", "l"]⟩] }

/-- Main island `m1-m2`, isolated member `x1`, and a non-member `br`
physically adjacent to both `x1` and `m1`: `br` is a bridge candidate. -/
def exBridge : NetworkTopology :=
  { devices := [⟨"m1", "switch", "core", "x"⟩, ⟨"m2", "switch", "access", "x"⟩,
                ⟨"x1", "switch", "access", "x"⟩, ⟨"br", "router", "edge", "x"⟩],
    links := [⟨"m1", "m2", "ethernet", "1G"⟩, ⟨"x1", "br", "ethernet", "1G"⟩,
              ⟨"br", "m1", "ethernet", "1G"⟩],
    vlans := [⟨30, "blue", "d", ["m1", "m2", "x1"]⟩] }

/-- Invariant tying the visit set to the component list: the visit set is
the concatenation of the components, is duplicate-free, consists of graph
nodes, and every collected component is nonempty and closed under
adjacency. -/
structure CCInv (g : Graph) (visited : List String)
    (comps : List (List String)) : Prop where
  flat : visited = comps.flatten
  nodup : visited.Nodup
  sub : ∀ x ∈ visited, x ∈ g.nodes
  closed : ∀ c ∈ comps, ∀ x ∈ c, ∀ y, g.adjb x y = true → y ∈ g.nodes → y ∈ c
  nonnil : ∀ c ∈ comps, c ≠ []

/-! ### Generic list counting helpers -/

theorem length_filter_le {α : Type} (p q : α → Bool) (l : List α)
    (hpq : ∀ x, q x = true → p x = true) :
    (l.filter q).length ≤ (l.filter p).length := by
  induction l with
  | nil => simp
  | cons a l ih =>
    by_cases hq : q a = true
    · have hp := hpq a hq
      simp [List.filter_cons, hq, hp, Nat.succ_le_succ ih]
    · rw [Bool.not_eq_true] at hq
      by_cases hp : p a = true
      · simp only [List.filter_cons, hq, hp]
        simpa using Nat.le_trans ih (Nat.le_succ _)
      · rw [Bool.not_eq_true] at hp
        simpa [List.filter_cons, hq, hp] using ih

theorem length_filter_lt {α : Type} (p q : α → Bool) (l : List α)
    (hpq : ∀ x, q x = true → p x = true) (n : α) (hn : n ∈ l)
    (hp : p n = true) (hq : q n = false) :
    (l.filter q).length < (l.filter p).length := by
  induction l with
  | nil => cases hn
  | cons a l ih =>
    rcases List.mem_cons.mp hn with rfl | hmem
    · simp only [List.filter_cons, hp, hq]
      simpa using Nat.lt_succ_of_le (length_filter_le p q l hpq)
    · by_cases hqa : q a = true
      · have hpa := hpq a hqa
        simpa [List.filter_cons, hqa, hpa] using Nat.succ_lt_succ (ih hmem)
      · rw [Bool.not_eq_true] at hqa
        by_cases hpa : p a = true
        · simp only [List.filter_cons, hqa, hpa]
          exact Nat.lt_succ_of_lt (ih hmem)
        · rw [Bool.not_eq_true] at hpa
          simpa [List.filter_cons, hqa, hpa] using ih hmem

/-! ### Adjacency and neighbor lemmas -/

theorem mem_neighbors {g : Graph} {x y : String} :
    y ∈ g.neighbors x ↔ g.adjb x y = true := by
  simp only [Graph.neighbors, Graph.adjb, List.mem_filterMap, List.any_eq_true,
    decide_eq_true_eq]
  constructor
  · rintro ⟨e, he, hsome⟩
    refine ⟨e, he, ?_⟩
    by_cases h1 : e.1 = x
    · rw [if_pos h1] at hsome
      exact Or.inl ⟨h1, Option.some_injective _ hsome⟩
    · rw [if_neg h1] at hsome
      by_cases h2 : e.2 = x
      · rw [if_pos h2] at hsome
        exact Or.inr ⟨Option.some_injective _ hsome, h2⟩
      · rw [if_neg h2] at hsome
        cases hsome
  · rintro ⟨e, he, ⟨h1, h2⟩ | ⟨h1, h2⟩⟩
    · exact ⟨e, he, by rw [if_pos h1, h2]⟩
    · refine ⟨e, he, ?_⟩
      by_cases hx : e.1 = x
      · have hxy : x = y := by rw [← hx, h1]
        rw [if_pos hx, h2, hxy]
      · rw [if_neg hx, if_pos h2, h1]

theorem adjb_symm {g : Graph} {x y : String} :
    g.adjb x y = g.adjb y x := by
  simp only [Graph.adjb]
  congr 1
  funext e
  by_cases h1 : e.1 = x <;> by_cases h2 : e.2 = y <;>
    by_cases h3 : e.1 = y <;> by_cases h4 : e.2 = x <;> simp [h1, h2, h3, h4]

theorem adjb_mem_nodes {g : Graph} (hwf : g.WF) {x y : String}
    (h : g.adjb x y = true) : x ∈ g.nodes ∧ y ∈ g.nodes := by
  simp only [Graph.adjb, List.any_eq_true, decide_eq_true_eq] at h
  obtain ⟨e, he, h | h⟩ := h
  · obtain ⟨h1, h2⟩ := hwf e he
    exact ⟨h.1 ▸ h1, h.2 ▸ h2⟩
  · obtain ⟨h1, h2⟩ := hwf e he
    exact ⟨h.2 ▸ h2, h.1 ▸ h1⟩

/-! ### Depth-first search invariants -/

theorem dfsAux_extends {g : Graph} :
    ∀ {fuel : Nat} {stack visited v2 : List String},
      dfsAux g fuel stack visited = some v2 → visited <+: v2 := by
  intro fuel
  induction fuel with
  | zero =>
    intro stack visited v2 h
    cases stack with
    | nil =>
      simp only [dfsAux, Option.some.injEq] at h
      exact h ▸ List.prefix_refl _
    | cons n rest => simp [dfsAux] at h
  | succ f ih =>
    intro stack visited v2 h
    cases stack with
    | nil =>
      simp only [dfsAux, Option.some.injEq] at h
      exact h ▸ List.prefix_refl _
    | cons n rest =>
      simp only [dfsAux] at h
      by_cases hv : n ∈ visited
      · rw [if_pos hv] at h
        exact ih h
      · rw [if_neg hv] at h
        by_cases hn : n ∈ g.nodes
        · rw [if_pos hn] at h
          exact (List.prefix_append visited [n]).trans (ih h)
        · rw [if_neg hn] at h
          exact ih h

theorem dfsAux_mem {g : Graph} :
    ∀ {fuel : Nat} {stack visited v2 : List String},
      dfsAux g fuel stack visited = some v2 →
      ∀ x ∈ v2, x ∈ visited ∨ x ∈ g.nodes := by
  intro fuel
  induction fuel with
  | zero =>
    intro stack visited v2 h x hx
    cases stack with
    | nil =>
      simp only [dfsAux, Option.some.injEq] at h
      exact Or.inl (h ▸ hx)
    | cons n rest => simp [dfsAux] at h
  | succ f ih =>
    intro stack visited v2 h x hx
    cases stack with
    | nil =>
      simp only [dfsAux, Option.some.injEq] at h
      exact Or.inl (h ▸ hx)
    | cons n rest =>
      simp only [dfsAux] at h
      by_cases hv : n ∈ visited
      · rw [if_pos hv] at h
        exact ih h x hx
      · rw [if_neg hv] at h
        by_cases hn : n ∈ g.nodes
        · rw [if_pos hn] at h
          rcases ih h x hx with hx' | hx'
          · rcases List.mem_append.mp hx' with hx'' | hx''
            · exact Or.inl hx''
            · simp only [List.mem_singleton] at hx''
              exact Or.inr (hx'' ▸ hn)
          · exact Or.inr hx'
        · rw [if_neg hn] at h
          exact ih h x hx

theorem dfsAux_stack {g : Graph} :
    ∀ {fuel : Nat} {stack visited v2 : List String},
      dfsAux g fuel stack visited = some v2 →
      ∀ x ∈ stack, x ∈ g.nodes → x ∈ v2 := by
  intro fuel
  induction fuel with
  | zero =>
    intro stack visited v2 h x hx _
    cases stack with
    | nil => cases hx
    | cons n rest => simp [dfsAux] at h
  | succ f ih =>
    intro stack visited v2 h x hx hxn
    cases stack with
    | nil => cases hx
    | cons n rest =>
      simp only [dfsAux] at h
      by_cases hv : n ∈ visited
      · rw [if_pos hv] at h
        rcases List.mem_cons.mp hx with rfl | hx'
        · exact (dfsAux_extends h).subset hv
        · exact ih h x hx' hxn
      · rw [if_neg hv] at h
        by_cases hn : n ∈ g.nodes
        · rw [if_pos hn] at h
          rcases List.mem_cons.mp hx with rfl | hx'
          · exact (dfsAux_extends h).subset (by simp)
          · exact ih h x (List.mem_append_right _ hx') hxn
        · rw [if_neg hn] at h
          rcases List.mem_cons.mp hx with rfl | hx'
          · exact absurd hxn hn
          · exact ih h x hx' hxn

theorem dfsAux_closed {g : Graph} :
    ∀ {fuel : Nat} {stack visited v2 : List String},
      dfsAux g fuel stack visited = some v2 →
      ∀ x ∈ v2, x ∉ visited → ∀ y ∈ g.neighbors x, y ∈ g.nodes → y ∈ v2 := by
  intro fuel
  induction fuel with
  | zero =>
    intro stack visited v2 h x hx hxv _ _ _
    cases stack with
    | nil =>
      simp only [dfsAux, Option.some.injEq] at h
      exact absurd (h ▸ hx) hxv
    | cons n rest => simp [dfsAux] at h
  | succ f ih =>
    intro stack visited v2 h x hx hxv y hy hyn
    cases stack with
    | nil =>
      simp only [dfsAux, Option.some.injEq] at h
      exact absurd (h ▸ hx) hxv
    | cons n rest =>
      simp only [dfsAux] at h
      by_cases hv : n ∈ visited
      · rw [if_pos hv] at h
        exact ih h x hx hxv y hy hyn
      · rw [if_neg hv] at h
        by_cases hn : n ∈ g.nodes
        · rw [if_pos hn] at h
          by_cases hxn : x = n
          · subst hxn
            exact dfsAux_stack h y (List.mem_append_left _ hy) hyn
          · have hxv' : x ∉ visited ++ [n] := by
              simp only [List.mem_append, List.mem_singleton]
              rintro (h' | h')
              · exact hxv h'
              · exact hxn h'
            exact ih h x hx hxv' y hy hyn
        · rw [if_neg hn] at h
          exact ih h x hx hxv y hy hyn

theorem dfsAux_nodup {g : Graph} :
    ∀ {fuel : Nat} {stack visited v2 : List String},
      dfsAux g fuel stack visited = some v2 → visited.Nodup → v2.Nodup := by
  intro fuel
  induction fuel with
  | zero =>
    intro stack visited v2 h hnd
    cases stack with
    | nil =>
      simp only [dfsAux, Option.some.injEq] at h
      exact h ▸ hnd
    | cons n rest => simp [dfsAux] at h
  | succ f ih =>
    intro stack visited v2 h hnd
    cases stack with
    | nil =>
      simp only [dfsAux, Option.some.injEq] at h
      exact h ▸ hnd
    | cons n rest =>
      simp only [dfsAux] at h
      by_cases hv : n ∈ visited
      · rw [if_pos hv] at h
        exact ih h hnd
      · rw [if_neg hv] at h
        by_cases hn : n ∈ g.nodes
        · rw [if_pos hn] at h
          exact ih h (by simp [List.nodup_append, hnd, hv])
        · rw [if_neg hn] at h
          exact ih h hnd

theorem dfsAux_isSome {g : Graph} :
    ∀ {fuel : Nat} {stack visited : List String},
      (g.nodes.filter fun x => x ∉ visited).length * (g.edges.length + 1) +
          stack.length ≤ fuel →
      (dfsAux g fuel stack visited).isSome := by
  intro fuel
  induction fuel with
  | zero =>
    intro stack visited h
    cases stack with
    | nil => simp [dfsAux]
    | cons n rest => simp only [List.length_cons] at h; omega
  | succ f ih =>
    intro stack visited h
    cases stack with
    | nil => simp [dfsAux]
    | cons n rest =>
      simp only [dfsAux]
      by_cases hv : n ∈ visited
      · rw [if_pos hv]
        apply ih
        simp only [List.length_cons] at h
        omega
      · rw [if_neg hv]
        by_cases hn : n ∈ g.nodes
        · rw [if_pos hn]
          apply ih
          have hlt : ((g.nodes.filter fun x => x ∉ visited ++ [n]).length) <
              ((g.nodes.filter fun x => x ∉ visited).length) := by
            apply length_filter_lt _ _ _ ?_ n hn (by simp [hv]) (by simp)
            intro x hx
            simp only [decide_eq_true_eq, List.mem_append, List.mem_singleton] at hx ⊢
            exact fun hc => hx (Or.inl hc)
          have hnb : (g.neighbors n).length ≤ g.edges.length :=
            List.length_filterMap_le _ _
          set u := (g.nodes.filter fun x => x ∉ visited).length with hu
          set u2 := (g.nodes.filter fun x => x ∉ visited ++ [n]).length with hu2
          have h2 : (u2 + 1) * (g.edges.length + 1) ≤ u * (g.edges.length + 1) :=
            Nat.mul_le_mul_right _ hlt
          have h3 : (u2 + 1) * (g.edges.length + 1) =
              u2 * (g.edges.length + 1) + (g.edges.length + 1) := by ring
          simp only [List.length_append, List.length_cons] at h ⊢
          omega
        · rw [if_neg hn]
          apply ih
          simp only [List.length_cons] at h
          omega

theorem runDfs_isSome (g : Graph) (n : String) (visited : List String) :
    (runDfs g n visited).isSome := by
  apply dfsAux_isSome
  have hle : (g.nodes.filter fun x => x ∉ visited).length ≤ g.nodes.length :=
    List.length_filter_le _ _
  have := Nat.mul_le_mul_right (g.edges.length + 1) hle
  simp only [List.length_singleton]
  omega

/-! ### Invariants of the component-collection loop -/

theorem ccStep {g : Graph} {visited : List String} {comps : List (List String)}
    {n : String} {v2 : List String} (inv : CCInv g visited comps)
    (hn : n ∈ g.nodes) (hnv : n ∉ visited) (hd : runDfs g n visited = some v2) :
    CCInv g v2 (comps ++ [v2.drop visited.length]) := by
  have hpre : visited <+: v2 := dfsAux_extends hd
  have heq : visited ++ v2.drop visited.length = v2 :=
    List.prefix_iff_eq_append.mp hpre
  have hnodup : v2.Nodup := dfsAux_nodup hd inv.nodup
  have hsplit : ∀ x, x ∈ v2 ↔ x ∈ visited ∨ x ∈ v2.drop visited.length := by
    intro x
    conv_lhs => rw [← heq]
    exact List.mem_append
  have hdisj : ∀ x ∈ v2.drop visited.length, x ∉ visited := by
    intro x hx hxv
    have hnd2 : (visited ++ v2.drop visited.length).Nodup := by rw [heq]; exact hnodup
    exact (List.nodup_append.mp hnd2).2.2 hxv hx
  refine ⟨?_, hnodup, ?_, ?_, ?_⟩
  · rw [← heq, inv.flat]
    simp
  · intro x hx
    rcases dfsAux_mem hd x hx with h | h
    · exact inv.sub x h
    · exact h
  · intro c hc
    rcases List.mem_append.mp hc with hc | hc
    · exact inv.closed c hc
    · simp only [List.mem_singleton] at hc
      subst hc
      intro x hx y hadj hyn
      have hxv2 : x ∈ v2 := (hsplit x).mpr (Or.inr hx)
      have hxnv : x ∉ visited := hdisj x hx
      have hyv2 : y ∈ v2 :=
        dfsAux_closed hd x hxv2 hxnv y (mem_neighbors.mpr hadj) hyn
      rcases (hsplit y).mp hyv2 with hyv | hyc
      · exfalso
        rw [inv.flat] at hyv
        obtain ⟨c0, hc0, hyc0⟩ := List.mem_flatten.mp hyv
        have hxn : x ∈ g.nodes := by
          rcases dfsAux_mem hd x hxv2 with h | h
          · exact absurd h hxnv
          · exact h
        have hxc0 : x ∈ c0 :=
          inv.closed c0 hc0 y hyc0 x (by rw [adjb_symm]; exact hadj) hxn
        exact hxnv (by rw [inv.flat]; exact List.mem_flatten.mpr ⟨c0, hc0, hxc0⟩)
      · exact hyc
  · intro c hc
    rcases List.mem_append.mp hc with hc | hc
    · exact inv.nonnil c hc
    · simp only [List.mem_singleton] at hc
      subst hc
      have hnv2 : n ∈ v2 := dfsAux_stack hd n (by simp) hn
      have : n ∈ v2.drop visited.length := by
        rcases (hsplit n).mp hnv2 with h | h
        · exact absurd h hnv
        · exact h
      exact List.ne_nil_of_mem this

theorem ccFold_inv {g : Graph} :
    ∀ (ns : List String) {visited : List String} {comps : List (List String)},
      CCInv g visited comps → (∀ n ∈ ns, n ∈ g.nodes) →
      CCInv g (ccFold g ns visited comps).1 (ccFold g ns visited comps).2 ∧
        (∀ x ∈ visited, x ∈ (ccFold g ns visited comps).1) ∧
        (∀ n ∈ ns, n ∈ (ccFold g ns visited comps).1) ∧
        (∀ c ∈ comps, c ∈ (ccFold g ns visited comps).2) := by
  intro ns
  induction ns with
  | nil =>
    intro visited comps inv _
    exact ⟨inv, fun x hx => hx, by simp, fun c hc => hc⟩
  | cons n ns ih =>
    intro visited comps inv hns
    simp only [ccFold]
    by_cases hv : n ∈ visited
    · rw [if_pos hv]
      obtain ⟨i1, i2, i3, i4⟩ := ih inv fun m hm => hns m (List.mem_cons_of_mem _ hm)
      refine ⟨i1, i2, ?_, i4⟩
      intro m hm
      rcases List.mem_cons.mp hm with rfl | hm'
      · exact i2 m hv
      · exact i3 m hm'
    · rw [if_neg hv]
      have hn : n ∈ g.nodes := hns n (List.mem_cons_self n ns)
      cases hd : runDfs g n visited with
      | none =>
        exfalso
        have := runDfs_isSome g n visited
        rw [hd] at this
        cases this
      | some v2 =>
        have step := ccStep inv hn hv hd
        obtain ⟨i1, i2, i3, i4⟩ := ih step fun m hm => hns m (List.mem_cons_of_mem _ hm)
        have hvis : ∀ x ∈ visited, x ∈ v2 := fun x hx => (dfsAux_extends hd).subset hx
        refine ⟨i1, fun x hx => i2 x (hvis x hx), ?_, ?_⟩
        · intro m hm
          rcases List.mem_cons.mp hm with rfl | hm'
          · exact i2 m (dfsAux_stack hd m (by simp) hn)
          · exact i3 m hm'
        · intro c hc
          exact i4 c (List.mem_append_left _ hc)

theorem fcc_inv (g : Graph) :
    CCInv g ((ccFold g g.nodes [] []).1) (find_connected_components g) ∧
      ∀ n ∈ g.nodes, n ∈ (ccFold g g.nodes [] []).1 := by
  have base : CCInv g [] [] := ⟨rfl, List.nodup_nil, by simp, by simp, by simp⟩
  obtain ⟨i1, _, i3, _⟩ := ccFold_inv g.nodes base fun _ hn => hn
  exact ⟨i1, i3⟩

/-- Every node of the graph lies in some discovered component, and every
member of a discovered component is a node of the graph. -/
theorem fcc_mem_iff (g : Graph) (x : String) :
    (∃ c ∈ find_connected_components g, x ∈ c) ↔ x ∈ g.nodes := by
  obtain ⟨inv, cover⟩ := fcc_inv g
  constructor
  · rintro ⟨c, hc, hx⟩
    exact inv.sub x (by rw [inv.flat]; exact List.mem_flatten.mpr ⟨c, hc, hx⟩)
  · intro hx
    have := cover x hx
    rw [inv.flat] at this
    exact List.mem_flatten.mp this

/-- The concatenation of the discovered components has no duplicates:
components are pairwise disjoint and individually duplicate-free. -/
theorem fcc_flatten_nodup (g : Graph) :
    (find_connected_components g).flatten.Nodup := by
  obtain ⟨inv, _⟩ := fcc_inv g
  exact inv.flat ▸ inv.nodup

/-- Each discovered component is closed under graph adjacency. -/
theorem fcc_closed (g : Graph) :
    ∀ c ∈ find_connected_components g, ∀ x ∈ c, ∀ y,
      g.adjb x y = true → y ∈ g.nodes → y ∈ c :=
  (fcc_inv g).1.closed

/-- Each discovered component is nonempty. -/
theorem fcc_nonnil (g : Graph) :
    ∀ c ∈ find_connected_components g, c ≠ [] :=
  (fcc_inv g).1.nonnil

theorem fcc_pairwise_disjoint (g : Graph) :
    (find_connected_components g).Pairwise List.Disjoint :=
  (List.nodup_flatten.mp (fcc_flatten_nodup g)).2

theorem fcc_comp_nodup (g : Graph) :
    ∀ c ∈ find_connected_components g, c.Nodup :=
  (List.nodup_flatten.mp (fcc_flatten_nodup g)).1

/-! ### Physical graph construction lemmas -/

theorem addNode_edges (g : Graph) (n : String) : (g.addNode n).edges = g.edges := by
  unfold Graph.addNode
  split <;> rfl

theorem addNode_mem {g : Graph} {n x : String} :
    x ∈ (g.addNode n).nodes ↔ x ∈ g.nodes ∨ x = n := by
  unfold Graph.addNode
  split
  · rename_i h
    constructor
    · exact Or.inl
    · rintro (hx | rfl)
      · exact hx
      · exact h
  · simp [List.mem_append]

theorem addNode_nodup {g : Graph} (h : g.nodes.Nodup) (n : String) :
    (g.addNode n).nodes.Nodup := by
  unfold Graph.addNode
  split
  · exact h
  · rename_i hn
    simp [List.nodup_append, h, hn]

theorem addNode_wf {g : Graph} (h : g.WF) (n : String) : (g.addNode n).WF := by
  intro e he
  rw [addNode_edges] at he
  obtain ⟨h1, h2⟩ := h e he
  exact ⟨addNode_mem.mpr (Or.inl h1), addNode_mem.mpr (Or.inl h2)⟩

theorem addEdge_nodes (g : Graph) (a b : String) :
    (g.addEdge a b).nodes = ((g.addNode a).addNode b).nodes := by
  simp only [Graph.addEdge]
  split <;> rfl

theorem addEdge_mem {g : Graph} {a b x : String} :
    x ∈ (g.addEdge a b).nodes ↔ x ∈ g.nodes ∨ x = a ∨ x = b := by
  rw [addEdge_nodes, addNode_mem, addNode_mem, or_assoc]

theorem addEdge_nodup {g : Graph} (h : g.nodes.Nodup) (a b : String) :
    (g.addEdge a b).nodes.Nodup := by
  rw [addEdge_nodes]
  exact addNode_nodup (addNode_nodup h a) b

theorem addEdge_edges_sub {g : Graph} {a b : String} {e : String × String} :
    e ∈ (g.addEdge a b).edges → e ∈ g.edges ∨ e = (a, b) := by
  simp only [Graph.addEdge]
  split
  · intro he
    rw [addNode_edges, addNode_edges] at he
    exact Or.inl he
  · intro he
    simp only [List.mem_append, List.mem_singleton, addNode_edges] at he
    exact he

theorem addEdge_wf {g : Graph} (h : g.WF) (a b : String) : (g.addEdge a b).WF := by
  intro e he
  rcases addEdge_edges_sub he with he' | rfl
  · obtain ⟨h1, h2⟩ := h e he'
    exact ⟨addEdge_mem.mpr (Or.inl h1), addEdge_mem.mpr (Or.inl h2)⟩
  · exact ⟨addEdge_mem.mpr (Or.inr (Or.inl rfl)), addEdge_mem.mpr (Or.inr (Or.inr rfl))⟩

theorem foldNodes_mem :
    ∀ (ds : List Device) (g : Graph) (x : String),
      x ∈ (ds.foldl (fun g d => g.addNode d.id) g).nodes ↔
        x ∈ g.nodes ∨ ∃ d ∈ ds, d.id = x := by
  intro ds
  induction ds with
  | nil => simp
  | cons d ds ih =>
    intro g x
    simp only [List.foldl_cons, ih, addNode_mem, List.mem_cons]
    constructor
    · rintro ((hx | rfl) | ⟨d2, hd2, rfl⟩)
      · exact Or.inl hx
      · exact Or.inr ⟨d, Or.inl rfl, rfl⟩
      · exact Or.inr ⟨d2, Or.inr hd2, rfl⟩
    · rintro (hx | ⟨d2, hd2 | hd2, rfl⟩)
      · exact Or.inl (Or.inl hx)
      · exact Or.inl (Or.inr (by rw [hd2]))
      · exact Or.inr ⟨d2, hd2, rfl⟩

theorem foldNodes_nodup :
    ∀ (ds : List Device) (g : Graph), g.nodes.Nodup →
      (ds.foldl (fun g d => g.addNode d.id) g).nodes.Nodup := by
  intro ds
  induction ds with
  | nil => exact fun g h => h
  | cons d ds ih => exact fun g h => ih _ (addNode_nodup h d.id)

theorem foldNodes_wf :
    ∀ (ds : List Device) (g : Graph), g.WF →
      (ds.foldl (fun g d => g.addNode d.id) g).WF := by
  intro ds
  induction ds with
  | nil => exact fun g h => h
  | cons d ds ih => exact fun g h => ih _ (addNode_wf h d.id)

theorem foldEdges_mem_mono :
    ∀ (ls : List Link) (g : Graph) (x : String), x ∈ g.nodes →
      x ∈ (ls.foldl (fun g l => g.addEdge l.source l.target) g).nodes := by
  intro ls
  induction ls with
  | nil => exact fun g x h => h
  | cons l ls ih => exact fun g x h => ih _ x (addEdge_mem.mpr (Or.inl h))

theorem foldEdges_nodup :
    ∀ (ls : List Link) (g : Graph), g.nodes.Nodup →
      (ls.foldl (fun g l => g.addEdge l.source l.target) g).nodes.Nodup := by
  intro ls
  induction ls with
  | nil => exact fun g h => h
  | cons l ls ih => exact fun g h => ih _ (addEdge_nodup h _ _)

theorem foldEdges_wf :
    ∀ (ls : List Link) (g : Graph), g.WF →
      (ls.foldl (fun g l => g.addEdge l.source l.target) g).WF := by
  intro ls
  induction ls with
  | nil => exact fun g h => h
  | cons l ls ih => exact fun g h => ih _ (addEdge_wf h _ _)

theorem bpg_nodes_nodup (t : NetworkTopology) :
    (build_physical_graph t).nodes.Nodup :=
  foldEdges_nodup _ _ (foldNodes_nodup _ _ List.nodup_nil)

theorem bpg_wf (t : NetworkTopology) : (build_physical_graph t).WF :=
  foldEdges_wf _ _ (foldNodes_wf _ _ (fun e he => by cases he))

theorem bpg_mem_of_device {t : NetworkTopology} {x : String}
    (h : ∃ d ∈ t.devices, d.id = x) : x ∈ (build_physical_graph t).nodes :=
  foldEdges_mem_mono _ _ _ ((foldNodes_mem _ _ _).mpr (Or.inr h))

/-! ### Subgraph lemmas -/

theorem sub_nodes_mem {g : Graph} {vlan : VLAN} {x : String} :
    x ∈ (get_vlan_subgraph g vlan).nodes ↔ x ∈ g.nodes ∧ x ∈ vlan.devices := by
  simp [get_vlan_subgraph, List.mem_filter]

theorem sub_nodes_nodup {g : Graph} (h : g.nodes.Nodup) (vlan : VLAN) :
    (get_vlan_subgraph g vlan).nodes.Nodup :=
  h.filter _

theorem sub_wf {g : Graph} (h : g.WF) (vlan : VLAN) :
    (get_vlan_subgraph g vlan).WF := by
  intro e he
  simp only [get_vlan_subgraph, List.mem_filter, decide_eq_true_eq] at he
  obtain ⟨he, hm⟩ := he
  obtain ⟨h1, h2⟩ := h e he
  constructor
  · exact sub_nodes_mem.mpr ⟨h1, hm.1⟩
  · exact sub_nodes_mem.mpr ⟨h2, hm.2⟩

theorem sub_adjb {g : Graph} {vlan : VLAN} {x y : String} :
    (get_vlan_subgraph g vlan).adjb x y = true ↔
      g.adjb x y = true ∧ x ∈ vlan.devices ∧ y ∈ vlan.devices := by
  simp only [Graph.adjb, get_vlan_subgraph, List.any_eq_true, List.mem_filter,
    decide_eq_true_eq]
  constructor
  · rintro ⟨e, ⟨he, hm⟩, hor⟩
    refine ⟨⟨e, he, hor⟩, ?_⟩
    rcases hor with ⟨h1, h2⟩ | ⟨h1, h2⟩
    · exact ⟨h1 ▸ hm.1, h2 ▸ hm.2⟩
    · exact ⟨h2 ▸ hm.2, h1 ▸ hm.1⟩
  · rintro ⟨⟨e, he, hor⟩, hx, hy⟩
    refine ⟨e, ⟨he, ?_⟩, hor⟩
    rcases hor with ⟨h1, h2⟩ | ⟨h1, h2⟩
    · exact ⟨h1.symm ▸ hx, h2.symm ▸ hy⟩
    · exact ⟨h1.symm ▸ hy, h2.symm ▸ hx⟩

/-! ### Island construction lemmas -/

theorem mkIslands_map_devices (vid : Nat) :
    ∀ (k : Nat) (cs : List (List String)),
      (mkIslands vid k cs).map (fun i => i.devices) = cs := by
  intro k cs
  induction cs generalizing k with
  | nil => rfl
  | cons c cs ih => simp [mkIslands, ih]

theorem mkIslands_map_id (vid : Nat) :
    ∀ (k : Nat) (cs : List (List String)),
      (mkIslands vid k cs).map (fun i => i.island_id) =
        List.range' (k + 1) cs.length := by
  intro k cs
  induction cs generalizing k with
  | nil => rfl
  | cons c cs ih => simp [mkIslands, List.range'_succ, ih]

theorem mkIslands_len (vid k : Nat) (cs : List (List String)) :
    (mkIslands vid k cs).length = cs.length := by
  have := congrArg List.length (mkIslands_map_devices vid k cs)
  simpa using this

theorem mkIslands_mem (vid : Nat) :
    ∀ (k : Nat) (cs : List (List String)) (i : VLANIsland),
      i ∈ mkIslands vid k cs →
      i.is_main_island = false ∧ i.vlan_id = vid ∧ i.devices ∈ cs := by
  intro k cs
  induction cs generalizing k with
  | nil => intro i hi; cases hi
  | cons c cs ih =>
    intro i hi
    rcases List.mem_cons.mp hi with rfl | hi2
    · exact ⟨rfl, rfl, List.mem_cons_self _ _⟩
    · obtain ⟨h1, h2, h3⟩ := ih (k + 1) i hi2
      exact ⟨h1, h2, List.mem_cons_of_mem _ h3⟩

theorem markMain_map_devices (l : List VLANIsland) :
    (markMain l).map (fun i => i.devices) = l.map (fun i => i.devices) := by
  cases l <;> rfl

theorem markMain_map_id (l : List VLANIsland) :
    (markMain l).map (fun i => i.island_id) = l.map (fun i => i.island_id) := by
  cases l <;> rfl

theorem markMain_length (l : List VLANIsland) : (markMain l).length = l.length := by
  cases l <;> rfl

theorem markMain_sorted {l : List VLANIsland} (h : List.Sorted bySizeDesc l) :
    List.Sorted bySizeDesc (markMain l) := by
  cases l with
  | nil => exact h
  | cons a t =>
    show List.Sorted bySizeDesc ({ a with is_main_island := true } :: t)
    rw [List.sorted_cons] at h ⊢
    exact ⟨fun b hb => h.1 b hb, h.2⟩

/-! ### `analyzeVlanWith` field characterizations -/

theorem avw_islands (g : Graph) (vlan : VLAN) :
    (analyzeVlanWith g vlan).islands =
      markMain (List.insertionSort bySizeDesc (mkIslands vlan.id 0
        (find_connected_components (get_vlan_subgraph g vlan)))) := rfl

theorem avw_vlan_id (g : Graph) (vlan : VLAN) :
    (analyzeVlanWith g vlan).vlan_id = vlan.id := rfl

theorem avw_total (g : Graph) (vlan : VLAN) :
    (analyzeVlanWith g vlan).total_devices = vlan.devices.length := rfl

theorem avw_main (g : Graph) (vlan : VLAN) :
    (analyzeVlanWith g vlan).main_island_size =
      (((analyzeVlanWith g vlan).islands.head?.map fun i => i.size).getD 0) := rfl

theorem avw_ratio (g : Graph) (vlan : VLAN) :
    (analyzeVlanWith g vlan).fragmentation_ratio =
      if 0 < (analyzeVlanWith g vlan).total_devices then
        (((analyzeVlanWith g vlan).total_devices : ℚ) -
            ((analyzeVlanWith g vlan).main_island_size : ℚ)) /
          ((analyzeVlanWith g vlan).total_devices : ℚ)
      else 0 := rfl

theorem avw_has (g : Graph) (vlan : VLAN) :
    (analyzeVlanWith g vlan).has_islands =
      decide (1 < (analyzeVlanWith g vlan).islands.length) := rfl

theorem avw_devices_perm (g : Graph) (vlan : VLAN) :
    ((analyzeVlanWith g vlan).islands.map fun i => i.devices).Perm
      (find_connected_components (get_vlan_subgraph g vlan)) := by
  rw [avw_islands, markMain_map_devices]
  have hp := (List.perm_insertionSort bySizeDesc
    (mkIslands vlan.id 0 (find_connected_components (get_vlan_subgraph g vlan)))).map
      (fun i => i.devices)
  rwa [mkIslands_map_devices] at hp

theorem avw_islands_length (g : Graph) (vlan : VLAN) :
    (analyzeVlanWith g vlan).islands.length =
      (find_connected_components (get_vlan_subgraph g vlan)).length := by
  have h2 := (avw_devices_perm g vlan).length_eq
  simpa using h2

theorem avw_ids_perm (g : Graph) (vlan : VLAN) :
    ((analyzeVlanWith g vlan).islands.map fun i => i.island_id).Perm
      (List.range' 1 (analyzeVlanWith g vlan).islands.length) := by
  have hlen : (markMain (List.insertionSort bySizeDesc (mkIslands vlan.id 0
      (find_connected_components (get_vlan_subgraph g vlan))))).length =
      (find_connected_components (get_vlan_subgraph g vlan)).length := by
    rw [markMain_length, (List.perm_insertionSort _ _).length_eq, mkIslands_len]
  rw [avw_islands, markMain_map_id, hlen]
  have hp := (List.perm_insertionSort bySizeDesc
    (mkIslands vlan.id 0 (find_connected_components (get_vlan_subgraph g vlan)))).map
      (fun i => i.island_id)
  rw [mkIslands_map_id] at hp
  simpa using hp

theorem avw_sorted (g : Graph) (vlan : VLAN) :
    List.Sorted bySizeDesc (analyzeVlanWith g vlan).islands := by
  rw [avw_islands]
  exact markMain_sorted (List.sorted_insertionSort _ _)

theorem avw_flags (g : Graph) (vlan : VLAN) :
    (analyzeVlanWith g vlan).islands = [] ∨
      ∃ hd tl, (analyzeVlanWith g vlan).islands = hd :: tl ∧
        hd.is_main_island = true ∧ ∀ i ∈ tl, i.is_main_island = false := by
  rw [avw_islands]
  have hall : ∀ i ∈ List.insertionSort bySizeDesc (mkIslands vlan.id 0
      (find_connected_components (get_vlan_subgraph g vlan))),
      i.is_main_island = false := by
    intro i hi
    have hm := (List.perm_insertionSort bySizeDesc _).mem_iff.mp hi
    exact (mkIslands_mem _ _ _ i hm).1
  cases hsort : List.insertionSort bySizeDesc (mkIslands vlan.id 0
      (find_connected_components (get_vlan_subgraph g vlan))) with
  | nil => exact Or.inl rfl
  | cons hd tl =>
    refine Or.inr ⟨{ hd with is_main_island := true }, tl, rfl, rfl, ?_⟩
    intro i hi
    exact hall i (by rw [hsort]; exact List.mem_cons_of_mem _ hi)

/-! ### Lookup and branch lemmas for `analyze_vlan` -/

theorem foldl_find_none {v : Nat} :
    ∀ (l : List VLAN) (acc : Option VLAN),
      l.foldl (fun acc vl => if vl.id = v then some vl else acc) acc = none ↔
        acc = none ∧ ∀ vl ∈ l, vl.id ≠ v := by
  intro l
  induction l with
  | nil => simp
  | cons a l ih =>
    intro acc
    simp only [List.foldl_cons, ih, List.mem_cons]
    by_cases h : a.id = v
    · rw [if_pos h]
      constructor
      · rintro ⟨hc, _⟩
        cases hc
      · rintro ⟨_, hall⟩
        exact absurd h (hall a (Or.inl rfl))
    · rw [if_neg h]
      constructor
      · rintro ⟨hacc, hall⟩
        refine ⟨hacc, fun vl hvl => ?_⟩
        rcases hvl with rfl | hvl
        · exact h
        · exact hall vl hvl
      · rintro ⟨hacc, hall⟩
        exact ⟨hacc, fun vl hvl => hall vl (Or.inr hvl)⟩

theorem vlan_index_get_none_iff {t : NetworkTopology} {v : Nat} :
    vlan_index_get t v = none ↔ ∀ vl ∈ t.vlans, vl.id ≠ v := by
  unfold vlan_index_get
  rw [foldl_find_none]
  simp

theorem analyze_vlan_of_empty {t : NetworkTopology} {v : Nat} {vlan : VLAN}
    (h : vlan_index_get t v = some vlan) (he : vlan.devices = []) :
    analyze_vlan t v = some (emptyVlanResult vlan) := by
  unfold analyze_vlan
  rw [h]
  simp [he]

theorem analyze_vlan_of_nonempty {t : NetworkTopology} {v : Nat} {vlan : VLAN}
    (h : vlan_index_get t v = some vlan) (hne : vlan.devices ≠ []) :
    analyze_vlan t v = some (analyzeVlanWith (build_physical_graph t) vlan) := by
  unfold analyze_vlan
  rw [h]
  simp [List.isEmpty_iff, hne]

theorem analyze_vlan_none_iff {t : NetworkTopology} {v : Nat} :
    analyze_vlan t v = none ↔ vlan_index_get t v = none := by
  unfold analyze_vlan
  cases h : vlan_index_get t v with
  | none => simp
  | some vlan =>
    by_cases he : vlan.devices.isEmpty <;> simp [he]

/-! ### `maxByRatio` lemmas -/

theorem maxByRatio_mem :
    ∀ (l : List VLANAnalysisResult) (best : VLANAnalysisResult),
      maxByRatio best l = best ∨ maxByRatio best l ∈ l := by
  intro l
  induction l with
  | nil => intro best; exact Or.inl rfl
  | cons h t ih =>
    intro best
    simp only [maxByRatio]
    by_cases hc : best.fragmentation_ratio < h.fragmentation_ratio
    · rw [if_pos hc]
      rcases ih h with he | he
      · exact Or.inr (by rw [he]; exact List.mem_cons_self _ _)
      · exact Or.inr (List.mem_cons_of_mem _ he)
    · rw [if_neg hc]
      rcases ih best with he | he
      · exact Or.inl he
      · exact Or.inr (List.mem_cons_of_mem _ he)

theorem maxByRatio_le :
    ∀ (l : List VLANAnalysisResult) (best : VLANAnalysisResult),
      best.fragmentation_ratio ≤ (maxByRatio best l).fragmentation_ratio ∧
        ∀ x ∈ l, x.fragmentation_ratio ≤ (maxByRatio best l).fragmentation_ratio := by
  intro l
  induction l with
  | nil => intro best; exact ⟨le_refl _, by simp⟩
  | cons h t ih =>
    intro best
    simp only [maxByRatio]
    by_cases hc : best.fragmentation_ratio < h.fragmentation_ratio
    · rw [if_pos hc]
      obtain ⟨h1, h2⟩ := ih h
      refine ⟨le_of_lt (lt_of_lt_of_le hc h1), fun x hx => ?_⟩
      rcases List.mem_cons.mp hx with rfl | hx2
      · exact h1
      · exact h2 x hx2
    · rw [if_neg hc]
      obtain ⟨h1, h2⟩ := ih best
      refine ⟨h1, fun x hx => ?_⟩
      rcases List.mem_cons.mp hx with rfl | hx2
      · exact le_trans (not_lt.mp hc) h1
      · exact h2 x hx2

/-! ### Counting helper -/

theorem length_eq_of_mem_iff {l l2 : List String} (h1 : l.Nodup) (h2 : l2.Nodup)
    (h : ∀ x, x ∈ l ↔ x ∈ l2) : l.length = l2.length := by
  have hfs : l.toFinset = l2.toFinset := by
    ext x
    simp [List.mem_toFinset, h x]
  rw [← List.toFinset_card_of_nodup h1, ← List.toFinset_card_of_nodup h2, hfs]

/-! ### Stateful layer lemmas -/

theorem cacheFrame_refl (s : AnalyzerState) : cacheFrame s s :=
  ⟨rfl, rfl, rfl, Or.inl rfl⟩

theorem cacheFrame_trans {s1 s2 s3 : AnalyzerState}
    (h12 : cacheFrame s1 s2) (h23 : cacheFrame s2 s3) : cacheFrame s1 s3 := by
  obtain ⟨t12, d12, v12, c12⟩ := h12
  obtain ⟨t23, d23, v23, c23⟩ := h23
  refine ⟨t23.trans t12, d23.trans d12, v23.trans v12, ?_⟩
  rcases c23 with hc | ⟨hn2, hc⟩
  · rcases c12 with hc2 | ⟨hn1, hc2⟩
    · exact Or.inl (hc.trans hc2)
    · exact Or.inr ⟨hn1, hc.trans hc2⟩
  · rcases c12 with hc2 | ⟨hn1, hc2⟩
    · exact Or.inr ⟨hc2.symm.trans hn2, by rw [hc, t12]⟩
    · rw [hc2] at hn2
      cases hn2

theorem cacheFrame_valid {s s2 : AnalyzerState} (h : cacheFrame s s2)
    (hs : s.Valid) : s2.Valid := by
  obtain ⟨ht, hd, hv, hc⟩ := h
  obtain ⟨hd0, hv0, hc0⟩ := hs
  refine ⟨by rw [hd, ht, hd0], by rw [hv, ht, hv0], ?_⟩
  rcases hc with hc | ⟨_, hc⟩
  · rw [hc, ht]
    exact hc0
  · exact Or.inr (by rw [hc, ht])

theorem assoc_get_vlans (t : NetworkTopology) (v : Nat) :
    assoc_get (t.vlans.map fun vl => (vl.id, vl)) v = vlan_index_get t v := by
  unfold assoc_get vlan_index_get
  rw [List.foldl_map]

theorem getPG_fst {s : AnalyzerState} (hs : s.Valid) :
    s.getPhysicalGraph.1 = build_physical_graph s.topology := by
  rcases hs.2.2 with h | h <;> simp [AnalyzerState.getPhysicalGraph, h]

theorem getPG_frame (s : AnalyzerState) : cacheFrame s s.getPhysicalGraph.2 := by
  unfold AnalyzerState.getPhysicalGraph
  cases h : s.physical_graph_cache with
  | some g => exact cacheFrame_refl s
  | none => exact ⟨rfl, rfl, rfl, Or.inr ⟨h, rfl⟩⟩

theorem avs_frame (s : AnalyzerState) (v : Nat) :
    cacheFrame s (analyze_vlan_state s v).2 := by
  simp only [analyze_vlan_state]
  cases h : assoc_get s.vlan_index v with
  | none => exact cacheFrame_refl s
  | some vlan =>
    dsimp only
    by_cases he : vlan.devices.isEmpty = true
    · rw [if_pos he]
      exact cacheFrame_refl s
    · rw [if_neg he]
      exact getPG_frame s

theorem avs_fst {s : AnalyzerState} (hs : s.Valid) (v : Nat) :
    (analyze_vlan_state s v).1 = analyze_vlan s.topology v := by
  simp only [analyze_vlan_state, analyze_vlan]
  rw [hs.2.1, assoc_get_vlans]
  cases h : vlan_index_get s.topology v with
  | none => rfl
  | some vlan =>
    dsimp only
    by_cases he : vlan.devices.isEmpty = true
    · rw [if_pos he, if_pos he]
    · rw [if_neg he, if_neg he, getPG_fst hs]

theorem aavStep_frame (p : List VLANAnalysisResult × AnalyzerState) (vl : VLAN) :
    cacheFrame p.2 (aavStep p vl).2 := by
  simp only [aavStep]
  cases h : (analyze_vlan_state p.2 vl.id).1 with
  | none => exact avs_frame _ _
  | some res => exact avs_frame _ _

theorem aavFold_frame :
    ∀ (vls : List VLAN) (p : List VLANAnalysisResult × AnalyzerState),
      cacheFrame p.2 ((vls.foldl aavStep p).2) := by
  intro vls
  induction vls with
  | nil => exact fun p => cacheFrame_refl _
  | cons vl vls ih =>
    intro p
    rw [List.foldl_cons]
    exact cacheFrame_trans (aavStep_frame p vl) (ih (aavStep p vl))

theorem aav_state_frame (s : AnalyzerState) :
    cacheFrame s (analyze_all_vlans_state s).2 :=
  aavFold_frame s.topology.vlans ([], s)

theorem fps_frame (s : AnalyzerState) (a b : String) (v : Nat) :
    cacheFrame s (find_connection_paths_state s a b v).2 := by
  simp only [find_connection_paths_state]
  cases h : assoc_get s.vlan_index v with
  | none => exact cacheFrame_refl s
  | some vlan =>
    dsimp only
    by_cases hm : a ∉ vlan.devices ∨ b ∉ vlan.devices
    · rw [if_pos hm]
      exact cacheFrame_refl s
    · rw [if_neg hm]
      by_cases hn : a ∈ (get_vlan_subgraph s.getPhysicalGraph.1 vlan).nodes ∧
          b ∈ (get_vlan_subgraph s.getPhysicalGraph.1 vlan).nodes
      · rw [if_pos hn]
        exact getPG_frame s
      · rw [if_neg hn]
        exact getPG_frame s

theorem gics_frame (s : AnalyzerState) (v : Nat) :
    cacheFrame s (get_island_connectivity_suggestions_state s v).2 := by
  simp only [get_island_connectivity_suggestions_state]
  cases h : (analyze_vlan_state s v).1 with
  | none => exact avs_frame s v
  | some r =>
    dsimp only
    by_cases hi : r.has_islands = false
    · rw [if_pos hi]
      exact avs_frame s v
    · rw [if_neg hi]
      exact cacheFrame_trans (avs_frame s v) (getPG_frame _)

/-! ### Island-level helper lemmas -/

theorem avw_pairwise_disjoint (g : Graph) (vlan : VLAN) :
    (analyzeVlanWith g vlan).islands.Pairwise
      (fun a b => a.devices.Disjoint b.devices) := by
  have hcomps := fcc_pairwise_disjoint (get_vlan_subgraph g vlan)
  have hperm := avw_devices_perm g vlan
  have hsym : ∀ {x y : List String}, x.Disjoint y → y.Disjoint x :=
    fun h a ha hb => h hb ha
  have hmap := (hperm.pairwise_iff hsym).mpr hcomps
  exact List.pairwise_map.mp hmap

theorem avw_island_mem_comps {g : Graph} {vlan : VLAN} {i : VLANIsland}
    (hi : i ∈ (analyzeVlanWith g vlan).islands) :
    i.devices ∈ find_connected_components (get_vlan_subgraph g vlan) :=
  (avw_devices_perm g vlan).mem_iff.mp (List.mem_map_of_mem _ hi)

theorem avw_island_sub_nodes {g : Graph} {vlan : VLAN} {i : VLANIsland}
    (hi : i ∈ (analyzeVlanWith g vlan).islands) :
    ∀ x ∈ i.devices, x ∈ (get_vlan_subgraph g vlan).nodes := fun x hx =>
  (fcc_mem_iff (get_vlan_subgraph g vlan) x).mp ⟨i.devices, avw_island_mem_comps hi, hx⟩

theorem avw_island_members {g : Graph} {vlan : VLAN} {i : VLANIsland}
    (hi : i ∈ (analyzeVlanWith g vlan).islands) :
    ∀ x ∈ i.devices, x ∈ vlan.devices := fun x hx =>
  (sub_nodes_mem.mp (avw_island_sub_nodes hi x hx)).2

/-! ## Claims -/

/-- C1: for every VLAN present in the topology with at least one member
device, the islands in the result of `analyze_vlan` are pairwise disjoint
sets, and their union equals the VLAN's member set intersected with the
node set of the physical graph (every such device appears in exactly one
island). -/
theorem c1_islands_partition (t : NetworkTopology) (v : Nat) (vlan : VLAN)
    (hv : vlan_index_get t v = some vlan) (hne : vlan.devices ≠ []) :
    ∃ r, analyze_vlan t v = some r ∧
      r.islands.Pairwise (fun a b => a.devices.Disjoint b.devices) ∧
      ∀ x, (∃ i ∈ r.islands, x ∈ i.devices) ↔
        (x ∈ vlan.devices ∧ x ∈ (build_physical_graph t).nodes) := by
  refine ⟨_, analyze_vlan_of_nonempty hv hne, avw_pairwise_disjoint _ _, ?_⟩
  · intro x
    constructor
    · rintro ⟨i, hi, hx⟩
      have hmem : i.devices ∈ ((analyzeVlanWith (build_physical_graph t) vlan).islands.map
          fun i => i.devices) := List.mem_map_of_mem _ hi
      have hc := (avw_devices_perm (build_physical_graph t) vlan).mem_iff.mp hmem
      have hn := (fcc_mem_iff (get_vlan_subgraph (build_physical_graph t) vlan) x).mp
        ⟨i.devices, hc, hx⟩
      have := sub_nodes_mem.mp hn
      exact ⟨this.2, this.1⟩
    · rintro ⟨hxd, hxg⟩
      have hn : x ∈ (get_vlan_subgraph (build_physical_graph t) vlan).nodes :=
        sub_nodes_mem.mpr ⟨hxg, hxd⟩
      obtain ⟨c, hc, hx⟩ :=
        (fcc_mem_iff (get_vlan_subgraph (build_physical_graph t) vlan) x).mpr hn
      obtain ⟨i, hi, hdev⟩ := List.mem_map.mp
        ((avw_devices_perm (build_physical_graph t) vlan).mem_iff.mpr hc)
      exact ⟨i, hi, hdev ▸ hx⟩

/-- Witness for C1 at the repository's own five-switch test topology. -/
theorem c1_islands_partition_witness :
    ∃ r, analyze_vlan exSimple 100 = some r ∧
      r.islands.Pairwise (fun a b => a.devices.Disjoint b.devices) ∧
      ∀ x, (∃ i ∈ r.islands, x ∈ i.devices) ↔
        (x ∈ ["sw1", "sw2", "sw3", "sw4", "sw5"] ∧
          x ∈ (build_physical_graph exSimple).nodes) :=
  c1_islands_partition exSimple 100
    ⟨100, "Test-VLAN", "islands", ["sw1", "sw2", "sw3", "sw4", "sw5"]⟩
    (by decide) (by decide)

/-- C4: `analyze_vlan` returns an absent result exactly when the requested
VLAN id does not occur in the topology; a VLAN that exists with an empty
member list instead yields a valid zero result: zero total devices, no
islands, `has_islands` false, main island size 0, fragmentation ratio 0. -/
theorem c4_absent_vs_empty (t : NetworkTopology) (v : Nat) :
    (analyze_vlan t v = none ↔ ∀ vl ∈ t.vlans, vl.id ≠ v) ∧
      ∀ vlan, vlan_index_get t v = some vlan → vlan.devices = [] →
        analyze_vlan t v = some
          { vlan_id := vlan.id, vlan_name := vlan.name, total_devices := 0,
            islands := [], has_islands := false, main_island_size := 0,
            fragmentation_ratio := 0 } := by
  constructor
  · rw [analyze_vlan_none_iff, vlan_index_get_none_iff]
  · intro vlan hv he
    exact analyze_vlan_of_empty hv he

/-- Witness for C4: VLAN 999 is missing from the test topology, VLAN 300
exists with no members. -/
theorem c4_absent_vs_empty_witness :
    analyze_vlan exSimple 999 = none ∧
      analyze_vlan exSimple 300 = some
        { vlan_id := 300, vlan_name := "Empty-VLAN", total_devices := 0,
          islands := [], has_islands := false, main_island_size := 0,
          fragmentation_ratio := 0 } :=
  ⟨(c4_absent_vs_empty exSimple 999).1.mpr (by decide),
   (c4_absent_vs_empty exSimple 300).2 ⟨300, "Empty-VLAN", "empty", []⟩
     (by decide) rfl⟩

/-- C5: determinism of analysis.  On a validly initialized analyzer state,
calling `analyze_vlan` twice with the same VLAN id (the second call running
on the state left by the first) returns equal results: the same island
partition, ordering, ordinal ids and main marking, and the same metrics. -/
theorem c5_deterministic (s : AnalyzerState) (v : Nat) (hs : s.Valid) :
    (analyze_vlan_state (analyze_vlan_state s v).2 v).1 = (analyze_vlan_state s v).1 ∧
    ((analyze_vlan_state (analyze_vlan_state s v).2 v).1.map fun r =>
        r.islands.map fun i => (i.devices, i.island_id, i.is_main_island)) =
      ((analyze_vlan_state s v).1.map fun r =>
        r.islands.map fun i => (i.devices, i.island_id, i.is_main_island)) ∧
    ((analyze_vlan_state (analyze_vlan_state s v).2 v).1.map fun r =>
        (r.total_devices, r.main_island_size, r.fragmentation_ratio, r.has_islands)) =
      ((analyze_vlan_state s v).1.map fun r =>
        (r.total_devices, r.main_island_size, r.fragmentation_ratio, r.has_islands)) := by
  have h1 := avs_fst hs v
  have hframe := avs_frame s v
  have hvalid : (analyze_vlan_state s v).2.Valid := cacheFrame_valid hframe hs
  have h2 := avs_fst hvalid v
  rw [hframe.1] at h2
  have hmain : (analyze_vlan_state (analyze_vlan_state s v).2 v).1 =
      (analyze_vlan_state s v).1 := h2.trans h1.symm
  exact ⟨hmain, by rw [hmain], by rw [hmain]⟩

/-- Witness for C5 on a freshly initialized analyzer for the test
topology. -/
theorem c5_deterministic_witness :
    (analyze_vlan_state (analyze_vlan_state (mkAnalyzer exSimple) 100).2 100).1 =
        (analyze_vlan_state (mkAnalyzer exSimple) 100).1 ∧
      ((analyze_vlan_state (analyze_vlan_state (mkAnalyzer exSimple) 100).2 100).1.map
          fun r => r.islands.map fun i => (i.devices, i.island_id, i.is_main_island)) =
        ((analyze_vlan_state (mkAnalyzer exSimple) 100).1.map
          fun r => r.islands.map fun i => (i.devices, i.island_id, i.is_main_island)) ∧
      ((analyze_vlan_state (analyze_vlan_state (mkAnalyzer exSimple) 100).2 100).1.map
          fun r =>
            (r.total_devices, r.main_island_size, r.fragmentation_ratio, r.has_islands)) =
        ((analyze_vlan_state (mkAnalyzer exSimple) 100).1.map
          fun r =>
            (r.total_devices, r.main_island_size, r.fragmentation_ratio, r.has_islands)) :=
  c5_deterministic (mkAnalyzer exSimple) 100 ⟨rfl, rfl, Or.inl rfl⟩

/-- C9: purity/frame.  Each of the four analyzer operations leaves the
analyzer state unchanged, except that the first access to the physical
graph may fill the (previously empty) cache with the graph built from the
unchanged topology: `cacheFrame` states exactly that the topology, the
device index and the VLAN index are preserved, and the cache is untouched
or goes from `none` to the built graph. -/
theorem c9_frame (s : AnalyzerState) (v : Nat) (a b : String) :
    cacheFrame s (analyze_vlan_state s v).2 ∧
    cacheFrame s (analyze_all_vlans_state s).2 ∧
    cacheFrame s (find_connection_paths_state s a b v).2 ∧
    cacheFrame s (get_island_connectivity_suggestions_state s v).2 :=
  ⟨avs_frame s v, aav_state_frame s, fps_frame s a b v, gics_frame s v⟩

/-- C3 counterexample: on a topology whose components are discovered
small-first (`[a]` before `[b, c]`), the sorted islands list carries island
ids `[2, 1]`: the island at position 0 has id 2, not 1, because ids are
assigned in discovery order before the sort, not in sorted order as the
claim states. -/
theorem c3_counterexample :
    ((analyze_vlan exIdOrder 10).map fun r => r.islands.map fun i => i.island_id) =
        some [2, 1] ∧
      ((analyze_vlan exIdOrder 10).map fun r => r.islands.map fun i => i.devices) =
        some [["b", "c"], ["a"]] ∧
      ((analyze_vlan exIdOrder 10).map fun r =>
          r.islands.map fun i => i.is_main_island) = some [true, false] :=
  ⟨by decide, by decide, by decide⟩

/-- C3 amended: for every VLAN present with at least one member, the
islands of `analyze_vlan` are ordered by size descending, the first
(largest) island is the one marked as main (and only it), and the island
ids are the numbers `1..n` — assigned sequentially in component discovery
order before sorting, so the sorted list carries them as a permutation of
`1..n`, not necessarily in list order. -/
theorem c3_amended (t : NetworkTopology) (v : Nat) (vlan : VLAN)
    (hv : vlan_index_get t v = some vlan) (hne : vlan.devices ≠ []) :
    ∃ r, analyze_vlan t v = some r ∧
      List.Sorted bySizeDesc r.islands ∧
      (r.islands.map fun i => i.island_id).Perm (List.range' 1 r.islands.length) ∧
      (r.islands = [] ∨ ∃ hd tl, r.islands = hd :: tl ∧
        hd.is_main_island = true ∧ (∀ i ∈ tl, i.is_main_island = false) ∧
        ∀ i ∈ tl, i.size ≤ hd.size) := by
  refine ⟨_, analyze_vlan_of_nonempty hv hne, avw_sorted _ _, avw_ids_perm _ _, ?_⟩
  rcases avw_flags (build_physical_graph t) vlan with h | ⟨hd, tl, heq, hmain, hrest⟩
  · exact Or.inl h
  · refine Or.inr ⟨hd, tl, heq, hmain, hrest, ?_⟩
    have hs := avw_sorted (build_physical_graph t) vlan
    rw [heq, List.sorted_cons] at hs
    exact fun i hi => hs.1 i hi

/-- Witness for the amended C3 at the five-switch test topology. -/
theorem c3_amended_witness :
    ∃ r, analyze_vlan exSimple 100 = some r ∧
      List.Sorted bySizeDesc r.islands ∧
      (r.islands.map fun i => i.island_id).Perm (List.range' 1 r.islands.length) ∧
      (r.islands = [] ∨ ∃ hd tl, r.islands = hd :: tl ∧
        hd.is_main_island = true ∧ (∀ i ∈ tl, i.is_main_island = false) ∧
        ∀ i ∈ tl, i.size ≤ hd.size) :=
  c3_amended exSimple 100
    ⟨100, "Test-VLAN", "islands", ["sw1", "sw2", "sw3", "sw4", "sw5"]⟩
    (by decide) (by decide)

/-- C2: for a VLAN all of whose (duplicate-free) member ids name devices
present in the topology, the fragmentation ratio of the `analyze_vlan`
result is 0 exactly when the island count is at most 1; the zero-member
VLAN yields 0 islands and ratio 0. -/
theorem c2_ratio_iff (t : NetworkTopology) (v : Nat) (vlan : VLAN)
    (hv : vlan_index_get t v = some vlan)
    (hpresent : ∀ m ∈ vlan.devices, ∃ d ∈ t.devices, d.id = m)
    (hnodup : vlan.devices.Nodup) :
    ∃ r, analyze_vlan t v = some r ∧
      (r.fragmentation_ratio = 0 ↔ r.island_count ≤ 1) := by
  by_cases hdev : vlan.devices = []
  · refine ⟨_, analyze_vlan_of_empty hv hdev, ?_⟩
    simp [emptyVlanResult, VLANAnalysisResult.island_count]
  · refine ⟨_, analyze_vlan_of_nonempty hv hdev, ?_⟩
    have hmem1 : ∀ x, x ∈ vlan.devices ↔
        x ∈ (get_vlan_subgraph (build_physical_graph t) vlan).nodes := fun x =>
      ⟨fun h => sub_nodes_mem.mpr ⟨bpg_mem_of_device (hpresent x h), h⟩,
       fun h => (sub_nodes_mem.mp h).2⟩
    have hlen1 : vlan.devices.length =
        (get_vlan_subgraph (build_physical_graph t) vlan).nodes.length :=
      length_eq_of_mem_iff hnodup (sub_nodes_nodup (bpg_nodes_nodup t) vlan) hmem1
    have hmem2 : ∀ x, x ∈ (find_connected_components
        (get_vlan_subgraph (build_physical_graph t) vlan)).flatten ↔
        x ∈ (get_vlan_subgraph (build_physical_graph t) vlan).nodes := fun x => by
      rw [List.mem_flatten]
      exact fcc_mem_iff _ x
    have hlen2 : (find_connected_components
        (get_vlan_subgraph (build_physical_graph t) vlan)).flatten.length =
        (get_vlan_subgraph (build_physical_graph t) vlan).nodes.length :=
      length_eq_of_mem_iff (fcc_flatten_nodup _)
        (sub_nodes_nodup (bpg_nodes_nodup t) vlan) hmem2
    have hsizes : ((analyzeVlanWith (build_physical_graph t) vlan).islands.map
        fun i => i.devices.length).sum =
        ((find_connected_components
          (get_vlan_subgraph (build_physical_graph t) vlan)).map List.length).sum := by
      have hp := (avw_devices_perm (build_physical_graph t) vlan).map List.length
      rw [List.map_map] at hp
      simpa using hp.sum_eq
    have htot : (analyzeVlanWith (build_physical_graph t) vlan).total_devices =
        ((analyzeVlanWith (build_physical_graph t) vlan).islands.map
          fun i => i.devices.length).sum := by
      rw [avw_total, hlen1, ← hlen2, List.length_flatten, ← hsizes]
    have hpos : 0 < (analyzeVlanWith (build_physical_graph t) vlan).total_devices := by
      rw [avw_total]
      exact List.length_pos.mpr hdev
    have hratio := avw_ratio (build_physical_graph t) vlan
    rw [if_pos hpos] at hratio
    have hcast : ((analyzeVlanWith (build_physical_graph t) vlan).total_devices : ℚ) ≠ 0 := by
      exact_mod_cast Nat.pos_iff_ne_zero.mp hpos
    have hiff : (analyzeVlanWith (build_physical_graph t) vlan).fragmentation_ratio = 0 ↔
        (analyzeVlanWith (build_physical_graph t) vlan).total_devices =
          (analyzeVlanWith (build_physical_graph t) vlan).main_island_size := by
      rw [hratio, div_eq_zero_iff]
      simp only [hcast, or_false, sub_eq_zero]
      exact ⟨fun h => by exact_mod_cast h, fun h => by exact_mod_cast h⟩
    rw [hiff, VLANAnalysisResult.island_count]
    constructor
    · intro heq
      by_contra hc
      push_neg at hc
      obtain ⟨i1, l1, hl1⟩ : ∃ i1 l1,
          (analyzeVlanWith (build_physical_graph t) vlan).islands = i1 :: l1 := by
        cases h : (analyzeVlanWith (build_physical_graph t) vlan).islands with
        | nil => rw [h] at hc; simp at hc
        | cons a l => exact ⟨a, l, rfl⟩
      obtain ⟨i2, l2, hl2⟩ : ∃ i2 l2, l1 = i2 :: l2 := by
        cases h : l1 with
        | nil => rw [hl1, h] at hc; simp at hc
        | cons a l => exact ⟨a, l, rfl⟩
      rw [hl2] at hl1
      have hmain : (analyzeVlanWith (build_physical_graph t) vlan).main_island_size =
          i1.devices.length := by
        rw [avw_main, hl1]
        rfl
      have hmem_i2 : i2 ∈ (analyzeVlanWith (build_physical_graph t) vlan).islands := by
        rw [hl1]
        exact List.mem_cons_of_mem _ (List.mem_cons_self _ _)
      have hne2 : i2.devices ≠ [] := by
        apply fcc_nonnil (get_vlan_subgraph (build_physical_graph t) vlan)
        apply (avw_devices_perm (build_physical_graph t) vlan).mem_iff.mp
        exact List.mem_map_of_mem _ hmem_i2
      have hpos2 : 0 < i2.devices.length := List.length_pos.mpr hne2
      rw [htot, hl1] at heq
      simp only [List.map_cons, List.sum_cons] at heq
      rw [hmain] at heq
      omega
    · intro hle
      cases hisl : (analyzeVlanWith (build_physical_graph t) vlan).islands with
      | nil =>
        exfalso
        rw [htot, hisl] at hpos
        simp at hpos
      | cons hd tl =>
        have htl : tl = [] := by
          rw [hisl] at hle
          simp only [List.length_cons] at hle
          exact List.length_eq_zero.mp (by omega)
        subst htl
        have hmain : (analyzeVlanWith (build_physical_graph t) vlan).main_island_size =
            hd.devices.length := by
          rw [avw_main, hisl]
          rfl
        rw [htot, hisl, hmain]
        simp

/-- Witness for C2 at the healthy VLAN 200 of the test topology. -/
theorem c2_ratio_iff_witness :
    ∃ r, analyze_vlan exSimple 200 = some r ∧
      (r.fragmentation_ratio = 0 ↔ r.island_count ≤ 1) :=
  c2_ratio_iff exSimple 200 ⟨200, "Healthy-VLAN", "ok", ["sw1", "sw2", "sw3"]⟩
    (by decide) (by decide) (by decide)

/-- The recommendations component of the report is computed from the
problematic list alone. -/
theorem aav_recommendations (t : NetworkTopology) :
    (analyze_all_vlans t).recommendations =
      generate_recommendations (analyze_all_vlans t).problematic_vlans := rfl

theorem genrec_nil : generate_recommendations [] = [healthyMsg] := rfl

theorem genrec_cons (p : VLANAnalysisResult) (ps : List VLANAnalysisResult) :
    generate_recommendations (p :: ps) =
      detectedHeader (p :: ps).length ::
        ((List.insertionSort byRatioDesc (p :: ps)).map vlanIssueLine ++
          remediationSteps ++
          (if (1 : ℚ) / 2 < (maxByRatio p ps).fragmentation_ratio then
            priorityBlock (maxByRatio p ps)
          else [])) := rfl

/-! ### Simple-path enumeration lemmas -/

theorem chainb_cons_cons (g : Graph) (a b : String) (l : List String) :
    g.chainb (a :: b :: l) = (g.adjb a b && g.chainb (b :: l)) := rfl

theorem nodupb_cons {a : String} {l : List String} :
    nodupb (a :: l) = true ↔ a ∉ l ∧ nodupb l = true := by
  show (!l.contains a && nodupb l) = true ↔ _
  rw [Bool.and_eq_true, Bool.not_eq_true']
  have hc : l.contains a = true ↔ a ∈ l := List.elem_iff
  constructor
  · rintro ⟨h1, h2⟩
    refine ⟨fun hm => ?_, h2⟩
    rw [hc.mpr hm] at h1
    cases h1
  · rintro ⟨h1, h2⟩
    refine ⟨?_, h2⟩
    cases hb : l.contains a
    · rfl
    · exact absurd (hc.mp hb) h1

theorem mem_of_getLast?_eq {l : List String} {a : String}
    (h : l.getLast? = some a) : a ∈ l := by
  induction l with
  | nil => cases h
  | cons b l ih =>
    cases l with
    | nil =>
      simp only [List.getLast?_singleton, Option.some.injEq] at h
      simp [h]
    | cons c l2 =>
      rw [List.getLast?_cons_cons] at h
      exact List.mem_cons_of_mem _ (ih h)

theorem spa_sound {g : Graph} {target : String} :
    ∀ {fuel : Nat} {u : String} {visited p : List String},
      p ∈ simplePathsAux g target fuel u visited → u ∉ visited →
      p.head? = some u ∧ p.getLast? = some target ∧ g.chainb p = true ∧
        nodupb p = true ∧ (∀ x ∈ p, x ∉ visited) ∧ p.length ≤ fuel + 1 := by
  intro fuel
  induction fuel with
  | zero =>
    intro u visited p hp hu
    simp only [simplePathsAux] at hp
    by_cases ht : u = target
    · rw [if_pos ht] at hp
      simp only [List.mem_singleton] at hp
      subst hp
      subst ht
      refine ⟨rfl, rfl, rfl, rfl, ?_, by simp⟩
      intro x hx
      rw [List.mem_singleton] at hx
      exact hx ▸ hu
    · rw [if_neg ht] at hp
      cases hp
  | succ f ih =>
    intro u visited p hp hu
    simp only [simplePathsAux] at hp
    by_cases ht : u = target
    · rw [if_pos ht] at hp
      simp only [List.mem_singleton] at hp
      subst hp
      subst ht
      refine ⟨rfl, rfl, rfl, rfl, ?_, by simp⟩
      intro x hx
      rw [List.mem_singleton] at hx
      exact hx ▸ hu
    · rw [if_neg ht] at hp
      obtain ⟨w, hw, hpmap⟩ := List.mem_flatMap.mp hp
      obtain ⟨q, hq, rfl⟩ := List.mem_map.mp hpmap
      obtain ⟨hwn, hwv⟩ := List.mem_filter.mp hw
      have hwv2 : w ∉ u :: visited := of_decide_eq_true hwv
      obtain ⟨hqh, hql, hqc, hqn, hqd, hqlen⟩ := ih hq hwv2
      cases q with
      | nil => exact Option.noConfusion hqh
      | cons w2 q2 =>
        have hw2 : w2 = w := by simpa using hqh
        subst hw2
        refine ⟨rfl, ?_, ?_, ?_, ?_, ?_⟩
        · rw [List.getLast?_cons_cons]
          exact hql
        · rw [chainb_cons_cons, Bool.and_eq_true]
          exact ⟨mem_neighbors.mp hwn, hqc⟩
        · refine nodupb_cons.mpr ⟨?_, hqn⟩
          intro hc
          exact hqd u hc (List.mem_cons_self _ _)
        · intro x hx
          rcases List.mem_cons.mp hx with rfl | hx2
          · exact hu
          · intro hc
            exact hqd x hx2 (List.mem_cons_of_mem _ hc)
        · simp only [List.length_cons] at hqlen ⊢
          omega

theorem spa_complete {g : Graph} {target : String} :
    ∀ (rest : List String) (u : String) (fuel : Nat) (visited : List String),
      g.chainb (u :: rest) = true → (u :: rest).getLast? = some target →
      nodupb (u :: rest) = true → (∀ x ∈ u :: rest, x ∉ visited) →
      rest.length ≤ fuel →
      (u :: rest) ∈ simplePathsAux g target fuel u visited := by
  intro rest
  induction rest with
  | nil =>
    intro u fuel visited _ hlast _ _ _
    have hu : u = target := by simpa using hlast
    cases fuel with
    | zero =>
      simp only [simplePathsAux]
      rw [if_pos hu]
      exact List.mem_singleton.mpr rfl
    | succ f =>
      simp only [simplePathsAux]
      rw [if_pos hu]
      exact List.mem_singleton.mpr rfl
  | cons w rest2 ih =>
    intro u fuel visited hchain hlast hnodup hdisj hlen
    have hlast2 : (w :: rest2).getLast? = some target := by
      rw [List.getLast?_cons_cons] at hlast
      exact hlast
    rw [chainb_cons_cons, Bool.and_eq_true] at hchain
    obtain ⟨hu_notin, hnodup2⟩ := nodupb_cons.mp hnodup
    have hu_ne : u ≠ target := by
      intro he
      exact hu_notin (he ▸ mem_of_getLast?_eq hlast2)
    obtain ⟨f, rfl⟩ : ∃ f, fuel = f + 1 := by
      cases fuel with
      | zero => simp at hlen
      | succ f => exact ⟨f, rfl⟩
    simp only [simplePathsAux]
    rw [if_neg hu_ne]
    apply List.mem_flatMap.mpr
    refine ⟨w, ?_, ?_⟩
    · rw [List.mem_filter]
      refine ⟨mem_neighbors.mpr hchain.1, ?_⟩
      apply decide_eq_true
      intro hc
      rcases List.mem_cons.mp hc with rfl | hcv
      · exact hu_notin (List.mem_cons_self _ _)
      · exact hdisj w (List.mem_cons_of_mem _ (List.mem_cons_self _ _)) hcv
    · apply List.mem_map.mpr
      refine ⟨w :: rest2, ?_, rfl⟩
      refine ih w f (u :: visited) hchain.2 hlast2 hnodup2 ?_ ?_
      · intro x hx hcx
        rcases List.mem_cons.mp hcx with rfl | hcv
        · exact hu_notin hx
        · exact hdisj x (List.mem_cons_of_mem _ hx) hcv
      · simp only [List.length_cons] at hlen
        omega

theorem asp_sound {g : Graph} {s t : String} {p : List String}
    (h : p ∈ allSimplePaths g s t 10) : g.IsPathBetween s t p ∧ p.length ≤ 11 := by
  unfold allSimplePaths at h
  by_cases hst : s = t
  · rw [if_pos hst] at h
    cases h
  · rw [if_neg hst] at h
    obtain ⟨h1, h2, h3, h4, _, h6⟩ := spa_sound h (by simp)
    exact ⟨⟨h1, h2, h3, h4⟩, h6⟩

theorem asp_complete {g : Graph} {s t : String} {p : List String} (hst : s ≠ t)
    (hp : g.IsPathBetween s t p) (hlen : p.length ≤ 11) :
    p ∈ allSimplePaths g s t 10 := by
  unfold allSimplePaths
  rw [if_neg hst]
  obtain ⟨hh, hl, hc, hn⟩ := hp
  cases p with
  | nil => exact Option.noConfusion hh
  | cons u rest =>
    have hu : u = s := by simpa using hh
    subst hu
    refine spa_complete rest u 10 [] hc hl hn (by simp) ?_
    simp only [List.length_cons] at hlen
    omega

/-- Walking along adjacent nodes never leaves an adjacency-closed
component. -/
theorem chain_stays {g : Graph} (hwf : g.WF) {c : List String}
    (hclosed : ∀ x ∈ c, ∀ y, g.adjb x y = true → y ∈ g.nodes → y ∈ c) :
    ∀ (p : List String) (a : String), g.chainb (a :: p) = true → a ∈ c →
      ∀ x ∈ a :: p, x ∈ c := by
  intro p
  induction p with
  | nil =>
    intro a _ ha x hx
    rw [List.mem_singleton] at hx
    exact hx ▸ ha
  | cons b p2 ih =>
    intro a hchain ha x hx
    rw [chainb_cons_cons, Bool.and_eq_true] at hchain
    have hb : b ∈ c :=
      hclosed a ha b hchain.1 (adjb_mem_nodes hwf hchain.1).2
    rcases List.mem_cons.mp hx with rfl | hx2
    · exact ha
    · exact ih b hchain.2 hb x hx2

/-- The main branch of `find_connection_paths`: both devices are members
and physically present, so the simple-path enumeration runs. -/
theorem fcp_main {t : NetworkTopology} {v : Nat} {vlan : VLAN} {sd td : String}
    (hv : vlan_index_get t v = some vlan)
    (hsd : sd ∈ vlan.devices) (htd : td ∈ vlan.devices)
    (hsn : sd ∈ (get_vlan_subgraph (build_physical_graph t) vlan).nodes)
    (htn : td ∈ (get_vlan_subgraph (build_physical_graph t) vlan).nodes) :
    find_connection_paths t sd td v =
      some (allSimplePaths (get_vlan_subgraph (build_physical_graph t) vlan)
        sd td 10) := by
  unfold find_connection_paths
  rw [hv]
  dsimp only
  rw [if_neg (by simp [hsd, htd]), if_pos ⟨hsn, htn⟩]

/-- C6: in the report of `analyze_all_vlans`, if no VLAN is problematic the
recommendations are exactly the single healthy message; otherwise the list
is the header, one issue line per problematic VLAN in fragmentation-ratio
descending order, the fixed remediation block, and the priority block for
the worst VLAN exactly when its ratio exceeds one half. -/
theorem c6_recommendations (t : NetworkTopology) :
    ((analyze_all_vlans t).problematic_vlans = [] →
      (analyze_all_vlans t).recommendations = [healthyMsg]) ∧
    ((analyze_all_vlans t).problematic_vlans ≠ [] →
      ∃ sorted w,
        sorted.Perm (analyze_all_vlans t).problematic_vlans ∧
        List.Sorted byRatioDesc sorted ∧
        w ∈ (analyze_all_vlans t).problematic_vlans ∧
        (∀ x ∈ (analyze_all_vlans t).problematic_vlans,
          x.fragmentation_ratio ≤ w.fragmentation_ratio) ∧
        (analyze_all_vlans t).recommendations =
          detectedHeader (analyze_all_vlans t).problematic_vlans.length ::
            (sorted.map vlanIssueLine ++ remediationSteps ++
              (if (1 : ℚ) / 2 < w.fragmentation_ratio then priorityBlock w
              else []))) := by
  constructor
  · intro h
    rw [aav_recommendations, h, genrec_nil]
  · intro h
    obtain ⟨p, ps, hp⟩ : ∃ p ps, (analyze_all_vlans t).problematic_vlans = p :: ps := by
      cases hc : (analyze_all_vlans t).problematic_vlans with
      | nil => exact absurd hc h
      | cons a l => exact ⟨a, l, rfl⟩
    refine ⟨List.insertionSort byRatioDesc (p :: ps), maxByRatio p ps, ?_, ?_, ?_, ?_, ?_⟩
    · rw [hp]
      exact List.perm_insertionSort _ _
    · exact List.sorted_insertionSort _ _
    · rw [hp]
      rcases maxByRatio_mem ps p with he | he
      · rw [he]
        exact List.mem_cons_self _ _
      · exact List.mem_cons_of_mem _ he
    · intro x hx
      rw [hp] at hx
      obtain ⟨h1, h2⟩ := maxByRatio_le ps p
      rcases List.mem_cons.mp hx with rfl | hx2
      · exact h1
      · exact h2 x hx2
    · rw [aav_recommendations, hp, genrec_cons]

/-! ### Bridge-suggestion soundness -/

theorem fbc_sound {t : NetworkTopology} {g : Graph} {iso main : List String}
    {cand : BridgeCandidate} (h : cand ∈ find_bridge_candidates t g iso main) :
    cand.isolated_device ∈ iso ∧
    g.adjb cand.isolated_device cand.bridge_device = true ∧
    cand.bridge_device ∉ iso ∧
    ∃ m ∈ main, g.adjb cand.bridge_device m = true := by
  unfold find_bridge_candidates at h
  obtain ⟨d, hd, hmem⟩ := List.mem_flatMap.mp h
  obtain ⟨b, hb, hbc⟩ := List.mem_filterMap.mp hmem
  obtain ⟨hbn, hbi⟩ := List.mem_filter.mp hb
  have hbi2 : b ∉ iso := of_decide_eq_true hbi
  by_cases hany : ((g.neighbors b).any fun x => decide (x ∈ main)) = true
  · rw [if_pos hany] at hbc
    injection hbc with hbc2
    subst hbc2
    obtain ⟨m, hm1, hm2⟩ := List.any_eq_true.mp hany
    exact ⟨hd, mem_neighbors.mp hbn, hbi2, m, of_decide_eq_true hm2,
      mem_neighbors.mp hm1⟩
  · rw [if_neg hany] at hbc
    cases hbc

/-- Soundness of `get_island_connectivity_suggestions`: every suggested
`(isolated_device, bridge_device)` pair comes from a non-main island of the
fragmented VLAN, the isolated device lies in that island, the bridge device
is a physical neighbor of it lying outside the island, and the bridge
device has a physical neighbor inside the (unique, flagged) main island. -/
theorem gics_sound {t : NetworkTopology} {v : Nat} {s : ConnectivitySuggestions}
    (hs : get_island_connectivity_suggestions t v = some s)
    {opp : ConnectionOpportunity} (hopp : opp ∈ s.connection_opportunities)
    {cand : BridgeCandidate} (hcand : cand ∈ opp.bridge_candidates) :
    ∃ vlan, vlan_index_get t v = some vlan ∧ vlan.devices ≠ [] ∧
      analyze_vlan t v = some (analyzeVlanWith (build_physical_graph t) vlan) ∧
      ∃ mainIsl,
        opp.island ∈ (analyzeVlanWith (build_physical_graph t) vlan).islands ∧
        opp.island.is_main_island = false ∧
        mainIsl ∈ (analyzeVlanWith (build_physical_graph t) vlan).islands ∧
        mainIsl.is_main_island = true ∧
        cand.isolated_device ∈ opp.island.devices ∧
        (build_physical_graph t).adjb cand.isolated_device cand.bridge_device = true ∧
        cand.bridge_device ∉ opp.island.devices ∧
        ∃ m ∈ mainIsl.devices,
          (build_physical_graph t).adjb cand.bridge_device m = true := by
  simp only [get_island_connectivity_suggestions] at hs
  cases ha : analyze_vlan t v with
  | none =>
    rw [ha] at hs
    cases hs
  | some r =>
    rw [ha] at hs
    dsimp only at hs
    by_cases hh : r.has_islands = false
    · rw [if_pos hh] at hs
      cases hs
    · rw [if_neg hh] at hs
      obtain ⟨vlan, hv, hne, hr⟩ : ∃ vlan, vlan_index_get t v = some vlan ∧
          vlan.devices ≠ [] ∧ r = analyzeVlanWith (build_physical_graph t) vlan := by
        unfold analyze_vlan at ha
        cases hvl : vlan_index_get t v with
        | none =>
          rw [hvl] at ha
          cases ha
        | some vlan =>
          rw [hvl] at ha
          dsimp only at ha
          by_cases he : vlan.devices.isEmpty = true
          · rw [if_pos he] at ha
            injection ha with ha2
            exfalso
            apply hh
            rw [← ha2]
            rfl
          · rw [if_neg he] at ha
            injection ha with ha2
            refine ⟨vlan, rfl, ?_, ha2.symm⟩
            intro hc
            apply he
            rw [hc]
            rfl
      subst hr
      injection hs with hs2
      subst hs2
      cases hf : (analyzeVlanWith (build_physical_graph t) vlan).islands.find?
          (fun i => i.is_main_island) with
      | none =>
        rw [hf] at hopp
        cases hopp
      | some mainIsl =>
        rw [hf] at hopp
        obtain ⟨isl, hisl_f, hisl_eq⟩ := List.mem_filterMap.mp hopp
        by_cases hce : (find_bridge_candidates t (build_physical_graph t)
            isl.devices mainIsl.devices).isEmpty = true
        · rw [if_pos hce] at hisl_eq
          cases hisl_eq
        · rw [if_neg hce] at hisl_eq
          injection hisl_eq with hisl_eq2
          subst hisl_eq2
          obtain ⟨hisl_mem, hisl_ne⟩ := List.mem_filter.mp hisl_f
          have hisl_ne2 : isl ≠ mainIsl := of_decide_eq_true hisl_ne
          have hmain_mem := List.mem_of_find?_eq_some hf
          have hmain_flag : mainIsl.is_main_island = true := List.find?_some hf
          have hisl_flag : isl.is_main_island = false := by
            rcases avw_flags (build_physical_graph t) vlan with hnil |
                ⟨hd, tl, hlist, hhd, htl⟩
            · rw [hnil] at hisl_mem
              cases hisl_mem
            · have hmh : mainIsl = hd := by
                rw [hlist, List.find?_cons_of_pos _ hhd] at hf
                exact (Option.some_injective _ hf).symm
              subst hmh
              rw [hlist] at hisl_mem
              rcases List.mem_cons.mp hisl_mem with rfl | htl2
              · exact absurd rfl hisl_ne2
              · exact htl isl htl2
          obtain ⟨hc_iso, hc_adj, hc_out, m, hm_main, hm_adj⟩ := fbc_sound hcand
          exact ⟨vlan, hv, hne, rfl, mainIsl, hisl_mem, hisl_flag, hmain_mem,
            hmain_flag, hc_iso, hc_adj, hc_out, m, hm_main, hm_adj⟩

set_option maxRecDepth 40000 in
/-- C7 counterexample: in a twelve-device chain, `a` and `l` lie in the
same (single) island of VLAN 1, yet `find_connection_paths` returns an
empty path list, because the only simple path between them has 11 hops and
the enumeration is cut off at 10. -/
theorem c7_counterexample :
    ((analyze_vlan exChain 1).map fun r => r.island_count) = some 1 ∧
      ((analyze_vlan exChain 1).map fun r =>
        r.islands.all fun i =>
          decide ("a" ∈ i.devices) && decide ("l" ∈ i.devices)) = some true ∧
      find_connection_paths exChain "a" "l" 1 = some [] := by
  refine ⟨?_, ?_, ?_⟩ <;> decide

/-- C7 amended: for a VLAN present with members, member devices in two
different islands always yield an empty path list; every returned path is a
simple path inside the VLAN subgraph with at most 10 hops (11 nodes); and
for two distinct devices of the same island, every simple path of at most
10 hops between them is among the returned paths (so at least one path is
returned whenever one short enough exists — devices of the same island
farther than the cutoff apart may legitimately yield an empty list). -/
theorem c7_amended (t : NetworkTopology) (v : Nat) (vlan : VLAN)
    (hv : vlan_index_get t v = some vlan) (hne : vlan.devices ≠ []) :
    ∃ r, analyze_vlan t v = some r ∧
      (∀ isl1 ∈ r.islands, ∀ isl2 ∈ r.islands, ∀ sd td, isl1 ≠ isl2 →
        sd ∈ isl1.devices → td ∈ isl2.devices →
        find_connection_paths t sd td v = some []) ∧
      (∀ sd td ps, find_connection_paths t sd td v = some ps → ∀ p ∈ ps,
        (get_vlan_subgraph (build_physical_graph t) vlan).IsPathBetween sd td p ∧
          p.length ≤ 11) ∧
      (∀ isl ∈ r.islands, ∀ sd td p, sd ∈ isl.devices → td ∈ isl.devices →
        sd ≠ td →
        (get_vlan_subgraph (build_physical_graph t) vlan).IsPathBetween sd td p →
        p.length ≤ 11 →
        ∃ ps, find_connection_paths t sd td v = some ps ∧ p ∈ ps) := by
  refine ⟨_, analyze_vlan_of_nonempty hv hne, ?_, ?_, ?_⟩
  · intro isl1 h1 isl2 h2 sd td h12 hsd htd
    rw [fcp_main hv (avw_island_members h1 sd hsd) (avw_island_members h2 td htd)
      (avw_island_sub_nodes h1 sd hsd) (avw_island_sub_nodes h2 td htd)]
    have hempty : allSimplePaths (get_vlan_subgraph (build_physical_graph t) vlan)
        sd td 10 = [] := by
      rw [List.eq_nil_iff_forall_not_mem]
      intro p hp
      obtain ⟨⟨hh, hl, hc, hnd⟩, _⟩ := asp_sound hp
      cases p with
      | nil => exact Option.noConfusion hh
      | cons u rest =>
        have hu : u = sd := by simpa using hh
        subst hu
        have hall := chain_stays (sub_wf (bpg_wf t) vlan)
          (fcc_closed _ isl1.devices (avw_island_mem_comps h1)) rest u hc hsd
        have htd1 : td ∈ isl1.devices := hall td (mem_of_getLast?_eq hl)
        have hsym : Symmetric (fun a b : VLANIsland => a.devices.Disjoint b.devices) :=
          fun a b h x hx hy => h hy hx
        have hdisj := (avw_pairwise_disjoint (build_physical_graph t) vlan).forall
          hsym h1 h2 h12
        exact hdisj htd1 htd
    rw [hempty]
  · intro sd td ps hfcp p hp
    unfold find_connection_paths at hfcp
    rw [hv] at hfcp
    dsimp only at hfcp
    by_cases hmem : sd ∉ vlan.devices ∨ td ∉ vlan.devices
    · rw [if_pos hmem] at hfcp
      injection hfcp with h
      subst h
      cases hp
    · rw [if_neg hmem] at hfcp
      by_cases hn : sd ∈ (get_vlan_subgraph (build_physical_graph t) vlan).nodes ∧
          td ∈ (get_vlan_subgraph (build_physical_graph t) vlan).nodes
      · rw [if_pos hn] at hfcp
        injection hfcp with h
        subst h
        exact asp_sound hp
      · rw [if_neg hn] at hfcp
        cases hfcp
  · intro isl hisl sd td p hsd htd hst hpath hlen
    exact ⟨_, fcp_main hv (avw_island_members hisl sd hsd)
      (avw_island_members hisl td htd) (avw_island_sub_nodes hisl sd hsd)
      (avw_island_sub_nodes hisl td htd), asp_complete hst hpath hlen⟩

/-- Witness for the amended C7 at the five-switch test topology. -/
theorem c7_amended_witness :
    ∃ r, analyze_vlan exSimple 100 = some r ∧
      (∀ isl1 ∈ r.islands, ∀ isl2 ∈ r.islands, ∀ sd td, isl1 ≠ isl2 →
        sd ∈ isl1.devices → td ∈ isl2.devices →
        find_connection_paths exSimple sd td 100 = some []) ∧
      (∀ sd td ps, find_connection_paths exSimple sd td 100 = some ps → ∀ p ∈ ps,
        (get_vlan_subgraph (build_physical_graph exSimple)
          ⟨100, "Test-VLAN", "islands",
            ["sw1", "sw2", "sw3", "sw4", "sw5"]⟩).IsPathBetween sd td p ∧
          p.length ≤ 11) ∧
      (∀ isl ∈ r.islands, ∀ sd td p, sd ∈ isl.devices → td ∈ isl.devices →
        sd ≠ td →
        (get_vlan_subgraph (build_physical_graph exSimple)
          ⟨100, "Test-VLAN", "islands",
            ["sw1", "sw2", "sw3", "sw4", "sw5"]⟩).IsPathBetween sd td p →
        p.length ≤ 11 →
        ∃ ps, find_connection_paths exSimple sd td 100 = some ps ∧ p ∈ ps) :=
  c7_amended exSimple 100
    ⟨100, "Test-VLAN", "islands", ["sw1", "sw2", "sw3", "sw4", "sw5"]⟩
    (by decide) (by decide)

/-- Witness for C6 at the test topology, whose VLAN 100 is fragmented. -/
theorem c6_recommendations_witness :
    (analyze_all_vlans exSimple).problematic_vlans ≠ [] ∧
      ∃ sorted w,
        sorted.Perm (analyze_all_vlans exSimple).problematic_vlans ∧
        List.Sorted byRatioDesc sorted ∧
        w ∈ (analyze_all_vlans exSimple).problematic_vlans ∧
        (∀ x ∈ (analyze_all_vlans exSimple).problematic_vlans,
          x.fragmentation_ratio ≤ w.fragmentation_ratio) ∧
        (analyze_all_vlans exSimple).recommendations =
          detectedHeader (analyze_all_vlans exSimple).problematic_vlans.length ::
            (sorted.map vlanIssueLine ++ remediationSteps ++
              (if (1 : ℚ) / 2 < w.fragmentation_ratio then priorityBlock w
              else [])) :=
  ⟨by decide, (c6_recommendations exSimple).2 (by decide)⟩

/-- C8: each `(isolated_device, bridge_device)` pair suggested by
`get_island_connectivity_suggestions` satisfies: the isolated device
belongs to a non-main island, the bridge device is a physical neighbor of
the isolated device lying outside that island, and the bridge device has at
least one physical neighbor belonging to the (flagged) main island. -/
theorem c8_bridge_sound (t : NetworkTopology) (v : Nat)
    (s : ConnectivitySuggestions)
    (hs : get_island_connectivity_suggestions t v = some s)
    (opp : ConnectionOpportunity) (hopp : opp ∈ s.connection_opportunities)
    (cand : BridgeCandidate) (hcand : cand ∈ opp.bridge_candidates) :
    ∃ r, analyze_vlan t v = some r ∧
      opp.island ∈ r.islands ∧ opp.island.is_main_island = false ∧
      cand.isolated_device ∈ opp.island.devices ∧
      (build_physical_graph t).adjb cand.isolated_device cand.bridge_device = true ∧
      cand.bridge_device ∉ opp.island.devices ∧
      ∃ mainIsl ∈ r.islands, mainIsl.is_main_island = true ∧
        ∃ m ∈ mainIsl.devices,
          (build_physical_graph t).adjb cand.bridge_device m = true := by
  obtain ⟨vlan, _, _, ha, mainIsl, h1, h2, h3, h4, h5, h6, h7, m, h8, h9⟩ :=
    gics_sound hs hopp hcand
  exact ⟨_, ha, h1, h2, h5, h6, h7, mainIsl, h3, h4, m, h8, h9⟩

/-- Witness for C8 on the bridge example: device `br` bridges the isolated
member `x1` to the main island `{m1, m2}` of VLAN 30. -/
theorem c8_bridge_sound_witness :
    ∃ r, analyze_vlan exBridge 30 = some r ∧
      (⟨⟨30, ["x1"], 2, false⟩,
        [⟨"x1", "br", "router",
          "Configure VLAN on br to bridge x1 to main island"⟩]⟩ :
          ConnectionOpportunity).island ∈ r.islands ∧
      (⟨⟨30, ["x1"], 2, false⟩,
        [⟨"x1", "br", "router",
          "Configure VLAN on br to bridge x1 to main island"⟩]⟩ :
          ConnectionOpportunity).island.is_main_island = false ∧
      (⟨"x1", "br", "router",
        "Configure VLAN on br to bridge x1 to main island"⟩ :
          BridgeCandidate).isolated_device ∈
        (⟨⟨30, ["x1"], 2, false⟩,
          [⟨"x1", "br", "router",
            "Configure VLAN on br to bridge x1 to main island"⟩]⟩ :
            ConnectionOpportunity).island.devices ∧
      (build_physical_graph exBridge).adjb
        (⟨"x1", "br", "router",
          "Configure VLAN on br to bridge x1 to main island"⟩ :
            BridgeCandidate).isolated_device
        (⟨"x1", "br", "router",
          "Configure VLAN on br to bridge x1 to main island"⟩ :
            BridgeCandidate).bridge_device = true ∧
      (⟨"x1", "br", "router",
        "Configure VLAN on br to bridge x1 to main island"⟩ :
          BridgeCandidate).bridge_device ∉
        (⟨⟨30, ["x1"], 2, false⟩,
          [⟨"x1", "br", "router",
            "Configure VLAN on br to bridge x1 to main island"⟩]⟩ :
            ConnectionOpportunity).island.devices ∧
      ∃ mainIsl ∈ r.islands, mainIsl.is_main_island = true ∧
        ∃ m ∈ mainIsl.devices,
          (build_physical_graph exBridge).adjb
            (⟨"x1", "br", "router",
              "Configure VLAN on br to bridge x1 to main island"⟩ :
                BridgeCandidate).bridge_device m = true :=
  c8_bridge_sound exBridge 30
    ⟨30, "blue", 2,
      [⟨⟨30, ["x1"], 2, false⟩,
        [⟨"x1", "br", "router",
          "Configure VLAN on br to bridge x1 to main island"⟩]⟩]⟩
    (by decide)
    ⟨⟨30, ["x1"], 2, false⟩,
      [⟨"x1", "br", "router",
        "Configure VLAN on br to bridge x1 to main island"⟩]⟩
    (by decide)
    ⟨"x1", "br", "router",
      "Configure VLAN on br to bridge x1 to main island"⟩
    (by decide)

/-- C10 (implicit): for a VLAN all of whose member ids name devices present
in the topology, no suggested bridge device is itself a member of that
VLAN: a member that is a physical neighbor of an isolated member would lie
in the same connected component of the VLAN subgraph, hence inside the
isolated island, and the heuristic only considers neighbors outside it. -/
theorem c10_bridge_nonmember (t : NetworkTopology) (v : Nat) (vlan : VLAN)
    (hv : vlan_index_get t v = some vlan)
    ( _hpresent : ∀ m ∈ vlan.devices, ∃ d ∈ t.devices, d.id = m)
    (s : ConnectivitySuggestions)
    (hs : get_island_connectivity_suggestions t v = some s)
    (opp : ConnectionOpportunity) (hopp : opp ∈ s.connection_opportunities)
    (cand : BridgeCandidate) (hcand : cand ∈ opp.bridge_candidates) :
    cand.bridge_device ∉ vlan.devices := by
  obtain ⟨vlan2, hv2, _, _, mainIsl, hom, _, _, _, hiso, hadj, hout, _⟩ :=
    gics_sound hs hopp hcand
  rw [hv] at hv2
  injection hv2 with hveq
  subst hveq
  intro hb
  have hb_g : cand.bridge_device ∈ (build_physical_graph t).nodes :=
    (adjb_mem_nodes (bpg_wf t) hadj).2
  have hb_sub : cand.bridge_device ∈
      (get_vlan_subgraph (build_physical_graph t) vlan).nodes :=
    sub_nodes_mem.mpr ⟨hb_g, hb⟩
  have hd_dev : cand.isolated_device ∈ vlan.devices :=
    avw_island_members hom _ hiso
  have hsub_adj : (get_vlan_subgraph (build_physical_graph t) vlan).adjb
      cand.isolated_device cand.bridge_device = true :=
    sub_adjb.mpr ⟨hadj, hd_dev, hb⟩
  have hin : cand.bridge_device ∈ opp.island.devices :=
    fcc_closed (get_vlan_subgraph (build_physical_graph t) vlan)
      opp.island.devices (avw_island_mem_comps hom) _ hiso _ hsub_adj hb_sub
  exact hout hin

/-- Witness for C10 on the bridge example: the suggested bridge `br` is not
a member of VLAN 30. -/
theorem c10_bridge_nonmember_witness :
    (⟨"x1", "br", "router",
      "Configure VLAN on br to bridge x1 to main island"⟩ :
        BridgeCandidate).bridge_device ∉ ["m1", "m2", "x1"] :=
  c10_bridge_nonmember exBridge 30 ⟨30, "blue", "d", ["m1", "m2", "x1"]⟩
    (by decide) (by decide)
    ⟨30, "blue", 2,
      [⟨⟨30, ["x1"], 2, false⟩,
        [⟨"x1", "br", "router",
          "Configure VLAN on br to bridge x1 to main island"⟩]⟩]⟩
    (by decide)
    ⟨⟨30, ["x1"], 2, false⟩,
      [⟨"x1", "br", "router",
        "Configure VLAN on br to bridge x1 to main island"⟩]⟩
    (by decide)
    ⟨"x1", "br", "router",
      "Configure VLAN on br to bridge x1 to main island"⟩
    (by decide)

end VlanIslands
